import Mathlib

/-!
Verification of `paasta_tools/kubernetes_tools.py` against its
natural-language specification.  Python functions are shallowly embedded as
Lean definitions: dictionaries become association lists, `None`-able values
become `Option`, raised exceptions become `Except`, Python `int` replica
counts become `Nat`, and Python `float` parameters (bounce margin factors,
autoscaling setpoints) are modelled as exact rationals `ℚ`.
-/

namespace Paasta

/-- The typed error kinds named by the specification for the exceptions the
source raises (`raise Exception(...)` / `raise ValueError(...)` sites). -/
inductive KubeError where
  | incompatibleBounceMethod
  | invalidReplicaCount
  | invalidPlacementOperator (op : String)
  deriving DecidableEq, Repr

/-! ## DeployStatusReconciler

Embeds `get_kubernetes_app_deploy_status` (kubernetes_tools.py:2425-2450).
`app.status.ready_replicas`, `app.status.updated_replicas` and
`app.status.replicas` are `None`-able fields of the observed object, so they
are `Option Nat`; `desired_instances` is a plain count. -/

/-- `KubernetesDeployStatus` enum from the source
(`Running, Deploying, Waiting, Stopped = range(0, 4)`). -/
inductive KubernetesDeployStatus where
  | Running
  | Deploying
  | Waiting
  | Stopped
  deriving DecidableEq, Repr

/-- `get_kubernetes_app_deploy_status(app, kube_client, desired_instances)`:
the `if`/`elif` cascade over `app.status.ready_replicas`,
`app.status.updated_replicas`, `app.status.replicas`, transcribed branch by
branch.  (The returned deploy message is the constant `""` in the source and
is omitted.) -/
def get_kubernetes_app_deploy_status (ready_replicas updated_replicas replicas : Option Nat)
    (desired_instances : Nat) : KubernetesDeployStatus :=
  match ready_replicas with
  | none => if desired_instances = 0 then .Stopped else .Waiting
  | some r =>
    if r ≠ desired_instances then .Waiting
    else if updated_replicas.any (fun u => u < desired_instances) then .Deploying
    else if replicas = some 0 ∧ desired_instances = 0 then .Stopped
    else .Running

/-- The deploy-status rules exactly as the claim words them: five rules
evaluated in order, first match winning.  Written from the claim text, to be
compared with the embedding of the source. -/
def deployStatusClaimRules (desired : Nat) (ready updated : Option Nat)
    (total : Nat) : KubernetesDeployStatus :=
  if ready = none then (if desired = 0 then .Stopped else .Waiting)
  else if ready ≠ some desired then .Waiting
  else if updated.any (fun u => u < desired) then .Deploying
  else if total = 0 ∧ desired = 0 then .Stopped
  else .Running

/-! ## BounceStrategyResolver

Embeds `get_bounce_method` (kubernetes_tools.py:455-465),
`get_deployment_strategy_config` (kubernetes_tools.py:640-667),
`get_bounce_margin_factor` and the `KUBE_DEPLOY_STATEGY_MAP` constant. -/

/-- The slice of the resolved service-instance configuration
(`self.config_dict` plus base-class getters) that the bounce / replica-count
functions read.  `bounce_method` and `bounce_margin_factor` model
`config_dict.get(...)` with their defaults applied by the getters;
volume lists carry opaque names. -/
structure BounceConfig where
  bounce_method : Option String := none
  bounce_margin_factor : Option ℚ := none
  aws_ebs_volumes : List String := []
  persistent_volumes : List String := []
  /-- Modelled from the spec: `super().get_desired_instances()` is resolved by
  the configuration layer outside this file's source; modelled as the
  configured instance count carried in the canonical configuration. -/
  instances : Nat := 1

/-- `get_bounce_margin_factor`: `config_dict.get("bounce_margin_factor", 1.0)`. -/
def get_bounce_margin_factor (cfg : BounceConfig) : ℚ :=
  cfg.bounce_margin_factor.getD 1

/-- `get_bounce_method`: reads `bounce_method` with default `"crossover"`,
raising when an EBS volume is attached and the method is not
`"downthenup"`. -/
def get_bounce_method (cfg : BounceConfig) : Except KubeError String :=
  let bounce_method := cfg.bounce_method.getD "crossover"
  if cfg.aws_ebs_volumes ≠ [] ∧ bounce_method ≠ "downthenup" then
    .error .incompatibleBounceMethod
  else
    .ok bounce_method

/-- `KUBE_DEPLOY_STATEGY_MAP` (kubernetes_tools.py:155-159); `none` is the
`KeyError` case of a lookup at a key outside the map. -/
def KUBE_DEPLOY_STATEGY_MAP (bounce_method : String) : Option String :=
  if bounce_method = "crossover" then some "RollingUpdate"
  else if bounce_method = "downthenup" then some "Recreate"
  else if bounce_method = "brutal" then some "RollingUpdate"
  else none

/-- Python `int(q)` for the rationals this file needs: truncation toward
zero. -/
def pyInt (q : ℚ) : ℤ :=
  if 0 ≤ q then ⌊q⌋ else ⌈q⌉

/-- `V1RollingUpdateDeployment(max_surge=..., max_unavailable=...)`. -/
structure V1RollingUpdateDeployment where
  max_surge : String
  max_unavailable : String
  deriving DecidableEq, Repr

/-- `V1DeploymentStrategy(type=..., rolling_update=...)`. -/
structure V1DeploymentStrategy where
  type : String
  rolling_update : Option V1RollingUpdateDeployment
  deriving DecidableEq, Repr

/-- `get_deployment_strategy_config`: resolves the bounce method, maps it
through `KUBE_DEPLOY_STATEGY_MAP` (a missing key is a `KeyError`, modelled as
an unknown-operator-style error on the method name), and builds the rolling
update parameters; `"{}%".format(int((1 - margin) * 100))` becomes
`toString (pyInt ((1 - margin) * 100)) ++ "%"`. -/
def get_deployment_strategy_config (cfg : BounceConfig) :
    Except KubeError V1DeploymentStrategy :=
  match get_bounce_method cfg with
  | .error e => .error e
  | .ok bounce_method =>
    match KUBE_DEPLOY_STATEGY_MAP bounce_method with
    | none => .error (.invalidPlacementOperator bounce_method)
    | some strategy_type =>
      if strategy_type = "RollingUpdate" then
        let max_surge := "100%"
        if bounce_method = "crossover" then
          let max_unavailable :=
            toString (pyInt ((1 - get_bounce_margin_factor cfg) * 100)) ++ "%"
          .ok ⟨strategy_type, some ⟨max_surge, max_unavailable⟩⟩
        else if bounce_method = "brutal" then
          .ok ⟨strategy_type, some ⟨max_surge, "100%"⟩⟩
        else
          .error (.invalidPlacementOperator bounce_method)
      else
        .ok ⟨strategy_type, none⟩

/-! ## Replica-count restriction

Embeds `get_desired_instances` (kubernetes_tools.py:1155-1164): the base
count is accepted unless an EBS volume is defined and the count is outside
`[1, 0]`. -/

/-- `get_desired_instances`: `super()` result guarded by the EBS check. -/
def get_desired_instances (cfg : BounceConfig) : Except KubeError Nat :=
  let instances := cfg.instances
  if cfg.aws_ebs_volumes ≠ [] ∧ instances ≠ 1 ∧ instances ≠ 0 then
    .error .invalidReplicaCount
  else
    .ok instances

/-! ## Pod disruption budget

Embeds `max_unavailable(instance_count, bounce_margin_factor)`
(kubernetes_tools.py:1988-1994); `int(math.ceil(x))` on a non-negative
product is `⌈x⌉`. -/

/-- `max_unavailable`: `0` for zero instances, otherwise
`max(instance_count - ceil(instance_count * bounce_margin_factor), 1)`. -/
def max_unavailable (instance_count : Nat) (bounce_margin_factor : ℚ) : ℤ :=
  if instance_count = 0 then 0
  else max ((instance_count : ℤ) - ⌈(instance_count : ℚ) * bounce_margin_factor⌉) 1

/-! ## NameSanitizer

Embeds `sanitise_kubernetes_name` (kubernetes_tools.py:2592-2596) and
`get_kubernetes_app_name` (kubernetes_tools.py:2269-2274), working on
`List Char` so that the string rewrites can be reasoned about by
induction. -/

/-- `name.replace("_", "--")`: each underscore becomes a double dash. -/
def replaceUnderscores : List Char → List Char
  | [] => []
  | c :: rest =>
    if c = '_' then '-' :: '-' :: replaceUnderscores rest
    else c :: replaceUnderscores rest

/-- Python `str.lower()` restricted to ASCII (the inputs of interest are
orchestrator identifiers): code points 65-90 (`A`-`Z`) shift by 32, all
else unchanged. -/
def pyLowerChar (c : Char) : Char :=
  if 65 ≤ c.toNat ∧ c.toNat ≤ 90 then Char.ofNat (c.toNat + 32) else c

/-- The marker token `"underscore-"` that replaces a leading `"--"`. -/
def underscoreMarker : List Char :=
  ['u', 'n', 'd', 'e', 'r', 's', 'c', 'o', 'r', 'e', '-']

/-- `name.replace("--", "underscore-", 1)` under the `startswith("--")`
guard of the source: the first occurrence is at position 0, so a leading
`--` becomes the marker and any other list is unchanged. -/
def rewriteLeadingDashes (l : List Char) : List Char :=
  match l with
  | '-' :: '-' :: rest => underscoreMarker ++ rest
  | other => other

/-- `sanitise_kubernetes_name` on character lists: replace `_` with `--`,
rewrite a leading `--` to the marker, then lower-case. -/
def sanitiseChars (l : List Char) : List Char :=
  (rewriteLeadingDashes (replaceUnderscores l)).map pyLowerChar

/-- `sanitise_kubernetes_name(service)`. -/
def sanitise_kubernetes_name (service : String) : String :=
  String.mk (sanitiseChars service.data)

/-- The characters on which the amended injectivity contract is stated:
lower-case ASCII letters (code points 97-122), digits (48-57) and the
underscore. -/
def SafeChar (c : Char) : Prop :=
  (97 ≤ c.toNat ∧ c.toNat ≤ 122) ∨ (48 ≤ c.toNat ∧ c.toNat ≤ 57) ∨ c = '_'

instance (c : Char) : Decidable (SafeChar c) := by
  unfold SafeChar
  infer_instance

/-- Length of the leading dash run of a character list. -/
def countLeadDash : List Char → Nat
  | [] => 0
  | c :: rest => if c = '-' then countLeadDash rest + 1 else 0

/-- `get_kubernetes_app_name(service, instance)`:
`"{service}-{instance}"` over the sanitised parts. -/
def get_kubernetes_app_name (service instance_name : String) : String :=
  sanitise_kubernetes_name service ++ "-" ++ sanitise_kubernetes_name instance_name

/-! ## AutoscalingPolicyBuilder

Embeds `get_autoscaling_params` (kubernetes_tools.py:467-476),
`get_autoscaling_scaling_policy` (kubernetes_tools.py:479-504),
`namespace_external_metric_name` and `get_autoscaling_metric_spec`
(kubernetes_tools.py:509-640).  `kube_client` is only used in the source to
JSON-ify the result object and is dropped; the two
`load_system_paasta_config()` reads become an explicit
`SystemPaastaConfig` argument. -/

/-- The autoscaling-relevant slice of the configuration.  `desired_state`
and `is_autoscaling_enabled` are base-class getters whose bodies are not in
this source file; `autoscaling_enabled` is modelled from the spec
("autoscaling disabled" short-circuits the builder). -/
structure AutoscalingConfig where
  desired_state : String := "start"
  autoscaling_enabled : Bool := true
  metrics_provider : Option String := none
  decision_policy : Option String := none
  setpoint : Option ℚ := none
  forecast_policy : Option String := none
  offset : Option ℚ := none
  moving_average_window_seconds : Option ℚ := none
  min_instances : Option Nat := none
  max_instances : Option Nat := none
  service : String := ""
  instance_name : String := ""
  cluster : String := ""

/-- The two flags read through `load_system_paasta_config()`. -/
structure SystemPaastaConfig where
  hpa_always_uses_external_for_signalfx : Bool := false
  legacy_autoscaling_signalflow : String := ""

/-- Resolved `get_autoscaling_params`: the configured `autoscaling` mapping
deep-merged over the defaults
`{metrics_provider: "mesos_cpu", decision_policy: "proportional",
setpoint: 0.8}`. -/
structure AutoscalingParams where
  metrics_provider : String
  decision_policy : String
  setpoint : ℚ
  forecast_policy : Option String
  offset : Option ℚ
  moving_average_window_seconds : Option ℚ

/-- `get_autoscaling_params`: overrides win over the defaults. -/
def get_autoscaling_params (cfg : AutoscalingConfig) : AutoscalingParams where
  metrics_provider := cfg.metrics_provider.getD "mesos_cpu"
  decision_policy := cfg.decision_policy.getD "proportional"
  setpoint := cfg.setpoint.getD (4 / 5)
  forecast_policy := cfg.forecast_policy
  offset := cfg.offset
  moving_average_window_seconds := cfg.moving_average_window_seconds

/-- `get_min_instances`: `config_dict.get("min_instances", 1)`. -/
def get_min_instances (cfg : AutoscalingConfig) : Nat :=
  cfg.min_instances.getD 1

/-- `get_max_instances`: `config_dict.get("max_instances", None)`. -/
def get_max_instances (cfg : AutoscalingConfig) : Option Nat :=
  cfg.max_instances

/-- The fixed scale-down policy returned by
`get_autoscaling_scaling_policy` (its `max_replicas` argument is unused in
the returned mapping). -/
structure ScaleDownPolicy where
  stabilizationWindowSeconds : Nat
  selectPolicy : String
  policy_kind : String
  value : Nat
  periodSeconds : Nat
  deriving DecidableEq, Repr

/-- `get_autoscaling_scaling_policy`. -/
def get_autoscaling_scaling_policy (_max_replicas : Option Nat) : ScaleDownPolicy where
  stabilizationWindowSeconds := 300
  selectPolicy := "Max"
  policy_kind := "Percent"
  value := 30
  periodSeconds := 60

/-- `namespace_external_metric_name(metric_name)`. -/
def namespace_external_metric_name (cfg : AutoscalingConfig) (metric_name : String) : String :=
  get_kubernetes_app_name cfg.service cfg.instance_name ++ "-" ++ metric_name

/-- The parameters substituted into the signalflow template by
`legacy_autoscaling_signalflow.format(...)`; the rendered query string is
kept as this record rather than as formatted text. -/
structure SignalflowQuery where
  template : String
  setpoint : ℚ
  offset : ℚ
  moving_average_window_seconds : ℚ
  paasta_service : String
  paasta_instance : String
  paasta_cluster : String
  signalfx_metric_name : String

/-- An HPA metadata annotation value: a plain string or a rendered
signalflow query. -/
inductive AnnotationValue where
  | plain (s : String)
  | signalflow (q : SignalflowQuery)

/-- One `V2beta2MetricSpec` in the three shapes the source builds. -/
inductive V2beta2MetricSpec where
  | resource (name : String) (average_utilization : ℤ)
  | pods (metric_name : String) (selector_cluster : String) (average_value : ℚ)
  | external (metric_name : String) (target_value : ℤ)

/-- The `V2beta2HorizontalPodAutoscaler` fields the source populates. -/
structure Hpa where
  name : String
  hpaNamespace : String
  annotations : List (String × AnnotationValue)
  min_replicas : Nat
  max_replicas : Option Nat
  metrics : List V2beta2MetricSpec
  behavior : Option ScaleDownPolicy

/-- `get_autoscaling_metric_spec(name, cluster, kube_client, namespace)`. -/
def get_autoscaling_metric_spec (cfg : AutoscalingConfig) (sys : SystemPaastaConfig)
    (name : String) (cluster : String) (hpaNamespace : String := "paasta") :
    Option Hpa :=
  if cfg.desired_state = "stop" then none
  else if ¬ cfg.autoscaling_enabled then none
  else
    let autoscaling_params := get_autoscaling_params cfg
    if autoscaling_params.decision_policy = "bespoke" then none
    else
      let min_replicas := get_min_instances cfg
      let max_replicas := get_max_instances cfg
      if min_replicas = 0 ∨ max_replicas = some 0 then none
      else
        let metrics_provider := autoscaling_params.metrics_provider
        let target := autoscaling_params.setpoint
        let build : Option (List V2beta2MetricSpec × List (String × AnnotationValue)) :=
          if metrics_provider = "mesos_cpu" then
            some ([.resource "cpu" (pyInt (target * 100))], [])
          else if metrics_provider = "http" ∨ metrics_provider = "uwsgi" then
            let base := [("signalfx.com.custom.metrics", AnnotationValue.plain "")]
            if autoscaling_params.forecast_policy = some "moving_average"
                ∨ autoscaling_params.offset.isSome
                ∨ sys.hpa_always_uses_external_for_signalfx then
              let hpa_metric_name := namespace_external_metric_name cfg metrics_provider
              let q : SignalflowQuery :=
                { template := sys.legacy_autoscaling_signalflow
                  setpoint := target
                  offset := autoscaling_params.offset.getD 0
                  moving_average_window_seconds :=
                    autoscaling_params.moving_average_window_seconds.getD 1800
                  paasta_service := cfg.service
                  paasta_instance := cfg.instance_name
                  paasta_cluster := cfg.cluster
                  signalfx_metric_name := metrics_provider }
              some ([.external hpa_metric_name 1],
                base ++ [("signalfx.com.external.metric/" ++ hpa_metric_name,
                  AnnotationValue.signalflow q)])
            else
              some ([.pods metrics_provider cluster target], base)
          else
            none
        match build with
        | none => none
        | some (metrics, annotations) =>
          some
            { name := name
              hpaNamespace := hpaNamespace
              annotations := annotations
              min_replicas := min_replicas
              max_replicas := max_replicas
              metrics := metrics
              behavior := some (get_autoscaling_scaling_policy max_replicas) }

/-! ## AffinityCompiler

Embeds `to_node_label` (kubernetes_tools.py:2662-2675),
`_whitelist_blacklist_to_requirements`, `_raw_selectors_to_requirements`,
`get_node_affinity`, `get_pod_anti_affinity`,
`_kube_affinity_condition_to_label_selector`
(kubernetes_tools.py:1438-1504) and the affinity-assembly fragment of
`get_pod_template_spec` (kubernetes_tools.py:1359-1369). -/

/-- `to_node_label(label)`. -/
def to_node_label (label : String) : String :=
  if label = "instance_type" ∨ label = "instance-type" then
    "node.kubernetes.io/instance-type"
  else if label = "datacenter" ∨ label = "ecosystem" ∨ label = "habitat"
      ∨ label = "hostname" ∨ label = "region" ∨ label = "superregion" then
    "yelp.com/" ++ label
  else label

/-- One entry of a `node_selectors` per-label config list:
`{"operator": ..., "values": [...]}` or `{"operator": "Gt"/"Lt",
"value": n}`. -/
structure RawOpConfig where
  operator : String
  values : List String := []
  value : ℤ := 0

/-- The value under one `node_selectors` label: a list of strings
(shorthand for `In`), a list of operator configs, or anything else (a
non-list, skipped by the source). -/
inductive RawSelector where
  | strs (vals : List String)
  | cfgs (items : List RawOpConfig)
  | invalid

/-- One `anti_affinity` condition (`{"service": ..., "instance": ...}`;
unrecognised keys are ignored by the source and not modelled). -/
structure KubeAffinityCondition where
  service : Option String := none
  instance_name : Option String := none

/-- The placement-relevant slice of the configuration. -/
structure AffinityConfig where
  deploy_whitelist : Option (String × List String) := none
  deploy_blacklist : List (String × String) := []
  node_selectors : List (String × RawSelector) := []
  anti_affinity : List KubeAffinityCondition := []

/-- A node requirement triple `(label, operator, values)` as built by the
source before packaging. -/
abbrev Requirement := String × String × List String

/-- `_whitelist_blacklist_to_requirements`. -/
def whitelist_blacklist_to_requirements (cfg : AffinityConfig) : List Requirement :=
  (match cfg.deploy_whitelist with
   | some (location_type, alloweds) => [(to_node_label location_type, "In", alloweds)]
   | none => []) ++
  cfg.deploy_blacklist.map (fun p => (to_node_label p.1, "NotIn", [p.2]))

/-- The per-operator `values` computation inside
`_raw_selectors_to_requirements`; an unknown operator raises
`ValueError`. -/
def selectorValues (c : RawOpConfig) : Except KubeError (List String) :=
  if c.operator = "In" ∨ c.operator = "NotIn" then .ok c.values
  else if c.operator = "Exists" ∨ c.operator = "DoesNotExist" then .ok []
  else if c.operator = "Gt" ∨ c.operator = "Lt" then .ok [toString c.value]
  else .error (.invalidPlacementOperator c.operator)

/-- The requirements contributed by one `node_selectors` entry: non-lists
and empty lists are skipped, a string list is shorthand for one `In`
config. -/
def requirementsForEntry (label : String) (sel : RawSelector) :
    Except KubeError (List Requirement) :=
  match sel with
  | .invalid => .ok []
  | .strs [] => .ok []
  | .strs (v :: vs) => .ok [(to_node_label label, "In", v :: vs)]
  | .cfgs items =>
    items.mapM fun c => do
      let vs ← selectorValues c
      pure ((to_node_label label, c.operator, vs) : Requirement)

/-- `_raw_selectors_to_requirements`. -/
def raw_selectors_to_requirements (cfg : AffinityConfig) :
    Except KubeError (List Requirement) :=
  match cfg.node_selectors.mapM (fun e => requirementsForEntry e.1 e.2) with
  | .error e => .error e
  | .ok lists => .ok lists.flatten

/-- The merged requirement list `get_node_affinity` builds before packaging
(`requirements = whitelist/blacklist; requirements.extend(raw)`). -/
def mergedRequirements (cfg : AffinityConfig) : Except KubeError (List Requirement) :=
  match raw_selectors_to_requirements cfg with
  | .error e => .error e
  | .ok raw => .ok (whitelist_blacklist_to_requirements cfg ++ raw)

/-- `V1NodeSelectorRequirement(key=..., operator=..., values=...)`. -/
structure V1NodeSelectorRequirement where
  key : String
  operator : String
  values : List String

/-- `V1NodeAffinity` with its single required node-selector term. -/
structure V1NodeAffinity where
  match_expressions : List V1NodeSelectorRequirement

/-- `get_node_affinity`: `None` when the merged requirement list is empty,
otherwise everything packaged into one term. -/
def get_node_affinity (cfg : AffinityConfig) :
    Except KubeError (Option V1NodeAffinity) :=
  match mergedRequirements cfg with
  | .error e => .error e
  | .ok requirements =>
    if requirements.length = 0 then .ok none
    else .ok (some ⟨requirements.map (fun r => ⟨r.1, r.2.1, r.2.2⟩)⟩)

/-- `V1PodAffinityTerm(topology_key=..., label_selector=...)`. -/
structure V1PodAffinityTerm where
  topology_key : String
  match_labels : List (String × String)

/-- `_kube_affinity_condition_to_label_selector`. -/
def kube_affinity_condition_to_label_selector (condition : KubeAffinityCondition) :
    Option (List (String × String)) :=
  let labels :=
    (match condition.service with
     | some s => [("paasta.yelp.com/service", s)]
     | none => []) ++
    (match condition.instance_name with
     | some i => [("paasta.yelp.com/instance", i)]
     | none => [])
  if labels = [] then none else some labels

/-- `V1PodAntiAffinity` with its required terms. -/
structure V1PodAntiAffinity where
  terms : List V1PodAffinityTerm

/-- `get_pod_anti_affinity`: `None` for an empty condition list. -/
def get_pod_anti_affinity (cfg : AffinityConfig) : Option V1PodAntiAffinity :=
  match cfg.anti_affinity with
  | [] => none
  | conditions =>
    some ⟨conditions.filterMap fun condition =>
      (kube_affinity_condition_to_label_selector condition).map
        (fun ls => ⟨"kubernetes.io/hostname", ls⟩)⟩

/-- `V1Affinity`. -/
structure V1Affinity where
  node_affinity : Option V1NodeAffinity := none
  pod_anti_affinity : Option V1PodAntiAffinity := none

/-- The affinity-assembly fragment of `get_pod_template_spec`: the
`affinity` key is put into the pod spec only when a node affinity or a pod
anti-affinity exists. -/
def pod_template_affinity (cfg : AffinityConfig) :
    Except KubeError (Option V1Affinity) :=
  match get_node_affinity cfg with
  | .error e => .error e
  | .ok node_affinity =>
    let base : Option V1Affinity :=
      match node_affinity with
      | some na => some { node_affinity := some na }
      | none => none
    match get_pod_anti_affinity cfg with
    | some pa =>
      match base with
      | some a => .ok (some { a with pod_anti_affinity := some pa })
      | none => .ok (some { node_affinity := none, pod_anti_affinity := some pa })
    | none => .ok base

/-! ## ConfigHashEngine

Embeds `sanitize_for_config_hash` (kubernetes_tools.py:1561-1584) and the
`CONFIG_HASH_BLACKLIST` constant (kubernetes_tools.py:154).  A Python
dictionary as produced by `config.to_dict()` is an insertion-ordered map
with unique keys, modelled as an association list whose key list is
`Nodup`; JSON-like values are the `Value` tree. -/

/-- A JSON-like value of a `to_dict()` result. -/
inductive Value where
  | vnull
  | vbool (b : Bool)
  | vint (n : Int)
  | vstr (s : String)
  | varr (xs : List Value)
  | vmap (kvs : List (String × Value))

/-- One key/value binding of a Python dictionary. -/
abbrev KV := String × Value

/-- Lexicographic comparison of character lists by code point, used to give
maps a canonical key order.  (Defined from scratch because it must evaluate
inside the kernel.) -/
def lexLe : List Char → List Char → Bool
  | [], _ => true
  | _ :: _, [] => false
  | c :: cs, d :: ds =>
    if c.toNat < d.toNat then true
    else if d.toNat < c.toNat then false
    else lexLe cs ds

/-- Lexicographic comparison of keys. -/
def keyLe (a b : String) : Bool := lexLe a.data b.data

/-- Key order on bindings. -/
def kvLe (a b : KV) : Prop := keyLe a.1 b.1 = true

instance : DecidableRel kvLe := fun _ _ => inferInstanceAs (Decidable (_ = true))

/-- Sort a binding list by key. -/
def sortPairs (l : List KV) : List KV := l.insertionSort kvLe

mutual
/-- The canonical form of a value: every map, recursively, in sorted key
order.  `Modelled from the spec:` `get_config_hash` lives in
`paasta_tools/utils.py`, outside this source file; the spec requires only a
stable content hash that is "deterministic regardless of key insertion
order in the underlying mapping representation", so the hash is modelled as
this canonical form itself — an injective stand-in for the opaque hash
string. -/
def canon : Value → Value
  | .vnull => .vnull
  | .vbool b => .vbool b
  | .vint n => .vint n
  | .vstr s => .vstr s
  | .varr xs => .varr (canonList xs)
  | .vmap kvs => .vmap (sortPairs (canonKvs kvs))
termination_by structural v => v

/-- `canon` mapped over an array value. -/
def canonList : List Value → List Value
  | [] => []
  | x :: xs => canon x :: canonList xs
termination_by structural l => l

/-- `canon` mapped over the values of a binding list. -/
def canonKvs : List KV → List KV
  | [] => []
  | (k, v) :: kvs => (k, canon v) :: canonKvs kvs
termination_by structural l => l
end

mutual
/-- Decidable equality of values (hand-rolled: `deriving` does not support
this nested inductive). -/
def decEqV : (a b : Value) → Decidable (a = b)
  | .vnull, .vnull => isTrue rfl
  | .vbool a, .vbool b =>
    if h : a = b then isTrue (by rw [h]) else isFalse (fun hh => h (by injection hh))
  | .vint a, .vint b =>
    if h : a = b then isTrue (by rw [h]) else isFalse (fun hh => h (by injection hh))
  | .vstr a, .vstr b =>
    if h : a = b then isTrue (by rw [h]) else isFalse (fun hh => h (by injection hh))
  | .varr a, .varr b =>
    match decEqLV a b with
    | isTrue h => isTrue (by rw [h])
    | isFalse h => isFalse (fun hh => h (by injection hh))
  | .vmap a, .vmap b =>
    match decEqKV a b with
    | isTrue h => isTrue (by rw [h])
    | isFalse h => isFalse (fun hh => h (by injection hh))
  | .vnull, .vbool _ => isFalse (fun h => Value.noConfusion h)
  | .vnull, .vint _ => isFalse (fun h => Value.noConfusion h)
  | .vnull, .vstr _ => isFalse (fun h => Value.noConfusion h)
  | .vnull, .varr _ => isFalse (fun h => Value.noConfusion h)
  | .vnull, .vmap _ => isFalse (fun h => Value.noConfusion h)
  | .vbool _, .vnull => isFalse (fun h => Value.noConfusion h)
  | .vbool _, .vint _ => isFalse (fun h => Value.noConfusion h)
  | .vbool _, .vstr _ => isFalse (fun h => Value.noConfusion h)
  | .vbool _, .varr _ => isFalse (fun h => Value.noConfusion h)
  | .vbool _, .vmap _ => isFalse (fun h => Value.noConfusion h)
  | .vint _, .vnull => isFalse (fun h => Value.noConfusion h)
  | .vint _, .vbool _ => isFalse (fun h => Value.noConfusion h)
  | .vint _, .vstr _ => isFalse (fun h => Value.noConfusion h)
  | .vint _, .varr _ => isFalse (fun h => Value.noConfusion h)
  | .vint _, .vmap _ => isFalse (fun h => Value.noConfusion h)
  | .vstr _, .vnull => isFalse (fun h => Value.noConfusion h)
  | .vstr _, .vbool _ => isFalse (fun h => Value.noConfusion h)
  | .vstr _, .vint _ => isFalse (fun h => Value.noConfusion h)
  | .vstr _, .varr _ => isFalse (fun h => Value.noConfusion h)
  | .vstr _, .vmap _ => isFalse (fun h => Value.noConfusion h)
  | .varr _, .vnull => isFalse (fun h => Value.noConfusion h)
  | .varr _, .vbool _ => isFalse (fun h => Value.noConfusion h)
  | .varr _, .vint _ => isFalse (fun h => Value.noConfusion h)
  | .varr _, .vstr _ => isFalse (fun h => Value.noConfusion h)
  | .varr _, .vmap _ => isFalse (fun h => Value.noConfusion h)
  | .vmap _, .vnull => isFalse (fun h => Value.noConfusion h)
  | .vmap _, .vbool _ => isFalse (fun h => Value.noConfusion h)
  | .vmap _, .vint _ => isFalse (fun h => Value.noConfusion h)
  | .vmap _, .vstr _ => isFalse (fun h => Value.noConfusion h)
  | .vmap _, .varr _ => isFalse (fun h => Value.noConfusion h)
termination_by structural a _ => a

/-- Decidable equality of value lists. -/
def decEqLV : (a b : List Value) → Decidable (a = b)
  | [], [] => isTrue rfl
  | [], _ :: _ => isFalse (fun h => List.noConfusion h)
  | _ :: _, [] => isFalse (fun h => List.noConfusion h)
  | x :: xs, y :: ys =>
    match decEqV x y with
    | isFalse h => isFalse (fun hh => h (by injection hh))
    | isTrue h1 =>
      match decEqLV xs ys with
      | isTrue h2 => isTrue (by rw [h1, h2])
      | isFalse h => isFalse (fun hh => h (by injection hh))
termination_by structural a _ => a

/-- Decidable equality of binding lists. -/
def decEqKV : (a b : List KV) → Decidable (a = b)
  | [], [] => isTrue rfl
  | [], _ :: _ => isFalse (fun h => List.noConfusion h)
  | _ :: _, [] => isFalse (fun h => List.noConfusion h)
  | (k, v) :: xs, (k', v') :: ys =>
    if hk : k = k' then
      match decEqV v v' with
      | isFalse h => isFalse (fun hh => by
          injection hh with h1 h2
          exact h (congrArg Prod.snd h1))
      | isTrue h1 =>
        match decEqKV xs ys with
        | isTrue h2 => isTrue (by rw [hk, h1, h2])
        | isFalse h => isFalse (fun hh => h (by injection hh))
    else
      isFalse (fun hh => by
        injection hh with h1 h2
        exact hk (congrArg Prod.fst h1))
termination_by structural a _ => a
end

instance : DecidableEq Value := decEqV

/-- Python dictionary lookup `d[k]` / `d.get(k)` on the association-list
model (first binding wins; with `NodupKeys` there is at most one). -/
def lookupK (k : String) : List KV → Option Value
  | [] => none
  | (k', v) :: rest => if k' = k then some v else lookupK k rest

/-- The unique-keys invariant of a Python dictionary. -/
def NodupKeys (l : List KV) : Prop := (l.map Prod.fst).Nodup

/-- Python dictionary assignment `d[k] = v`: replace in place when the key
exists, append otherwise. -/
def setKey (l : List KV) (k : String) (v : Value) : List KV :=
  if l.any (fun kv => kv.1 = k) then
    l.map (fun kv => if kv.1 = k then (k, v) else kv)
  else
    l ++ [(k, v)]

/-- `CONFIG_HASH_BLACKLIST = {"replicas"}`. -/
def CONFIG_HASH_BLACKLIST : List String := ["replicas"]

/-- One level of the blacklist filter: the dict comprehension
`{key: value for key, value in d.items() if key not in CONFIG_HASH_BLACKLIST}`. -/
def filterBlacklist (l : List KV) : List KV :=
  l.filter (fun kv => !(CONFIG_HASH_BLACKLIST.contains kv.1))

/-- `sanitize_for_config_hash(config)`: drop blacklisted keys at the top
level, drop them again inside the `spec` mapping, then add the secret
fingerprints under `paasta_secrets`.  The `paasta_secrets` argument stands
for the value of `get_kubernetes_secret_hashes(...)`, whose
secret-signature reads go to an external collaborator.  `none` is the
`KeyError`/`AttributeError` raised when the filtered dict has no `spec`
mapping. -/
def sanitize_for_config_hash (config : List KV) (paasta_secrets : List KV) :
    Option (List KV) :=
  let ahash := filterBlacklist config
  match lookupK "spec" ahash with
  | some (.vmap spec) =>
    let ahash := setKey ahash "spec" (.vmap (filterBlacklist spec))
    some (setKey ahash "paasta_secrets" (.vmap paasta_secrets))
  | _ => none

/-- `Modelled from the spec:` `get_config_hash` (in `paasta_tools/utils.py`,
not under this source tree) — "produces a stable hash over the manifest's
content … deterministic regardless of key insertion order"; modelled as the
canonical form of the mapping. -/
def get_config_hash (m : List KV) : Value :=
  canon (.vmap m)

/-! ## Theorems -/

/-- Claim C1: for every input tuple (desired, ready-or-absent,
updated-or-absent, total), `get_kubernetes_app_deploy_status` returns the
status given by the five ordered first-match-wins rules of the spec, and in
particular the four concrete vectors evaluate to Stopped, Waiting,
Deploying and Running respectively. -/
theorem claim_C1_deploy_status_rules :
    (∀ (desired : Nat) (ready updated : Option Nat) (total : Nat),
      get_kubernetes_app_deploy_status ready updated (some total) desired =
        deployStatusClaimRules desired ready updated total)
    ∧ get_kubernetes_app_deploy_status none none (some 0) 0 = .Stopped
    ∧ get_kubernetes_app_deploy_status (some 2) (some 3) (some 3) 3 = .Waiting
    ∧ get_kubernetes_app_deploy_status (some 3) (some 2) (some 3) 3 = .Deploying
    ∧ get_kubernetes_app_deploy_status (some 3) (some 3) (some 3) 3 = .Running := by
  refine ⟨?_, by decide, by decide, by decide, by decide⟩
  intro desired ready updated total
  cases ready with
  | none => simp [get_kubernetes_app_deploy_status, deployStatusClaimRules]
  | some r =>
    simp [get_kubernetes_app_deploy_status, deployStatusClaimRules, Option.some.injEq]

/-- Claim C5 counterexample: with desired = 0 and total = 0 but a present,
nonzero ready-replica count, the reconciler returns Waiting, not
Stopped. -/
theorem claim_C5_counterexample :
    get_kubernetes_app_deploy_status (some 2) none (some 0) 0 =
      KubernetesDeployStatus.Waiting
    ∧ KubernetesDeployStatus.Waiting ≠ KubernetesDeployStatus.Stopped := by
  decide

/-- Claim C5 (amended): with desired = 0 and total = 0 the reconciler
returns Stopped for every value of the updated-replica field, provided the
ready-replica field is absent or zero; a present nonzero ready count gives
Waiting instead. -/
theorem claim_C5_zero_zero_stopped (ready updated : Option Nat)
    (hready : ready = none ∨ ready = some 0) :
    get_kubernetes_app_deploy_status ready updated (some 0) 0 =
      KubernetesDeployStatus.Stopped := by
  rcases hready with h | h <;> subst h <;>
    cases updated <;> simp [get_kubernetes_app_deploy_status]

/-- Witness for C5 at ready = some 0, updated = some 5. -/
theorem claim_C5_witness :
    get_kubernetes_app_deploy_status (some 0) (some 5) (some 0) 0 =
      KubernetesDeployStatus.Stopped :=
  claim_C5_zero_zero_stopped (some 0) (some 5) (Or.inr rfl)

/-- Claim C4: with an EBS volume attached, `get_bounce_method` succeeds
exactly when the configured method is `downthenup` and otherwise fails with
the incompatible-bounce-method error; with no EBS volume it never fails. -/
theorem claim_C4_bounce_method (cfg : BounceConfig) :
    (cfg.aws_ebs_volumes ≠ [] →
      ((∃ m, get_bounce_method cfg = .ok m) ↔
        cfg.bounce_method.getD "crossover" = "downthenup")
      ∧ (cfg.bounce_method.getD "crossover" ≠ "downthenup" →
          get_bounce_method cfg = .error .incompatibleBounceMethod))
    ∧ (cfg.aws_ebs_volumes = [] →
        get_bounce_method cfg = .ok (cfg.bounce_method.getD "crossover")) := by
  constructor
  · intro hebs
    constructor
    · constructor
      · rintro ⟨m, hm⟩
        by_cases hd : cfg.bounce_method.getD "crossover" = "downthenup"
        · exact hd
        · simp [get_bounce_method, hebs, hd] at hm
      · intro hd
        refine ⟨cfg.bounce_method.getD "crossover", ?_⟩
        simp [get_bounce_method, hd]
    · intro hd
      simp [get_bounce_method, hebs, hd]
  · intro hebs
    simp [get_bounce_method, hebs]

/-- Witness for C4: an EBS volume with `crossover` fails, with
`downthenup` succeeds, and no EBS volume always succeeds. -/
theorem claim_C4_witness :
    get_bounce_method { bounce_method := some "crossover", aws_ebs_volumes := ["vol-1"] } =
      .error .incompatibleBounceMethod
    ∧ (∃ m, get_bounce_method
        { bounce_method := some "downthenup", aws_ebs_volumes := ["vol-1"] } = .ok m)
    ∧ get_bounce_method { bounce_method := none } = .ok "crossover" :=
  ⟨(claim_C4_bounce_method _).1 (by decide) |>.2 (by decide),
   (claim_C4_bounce_method _).1 (by decide) |>.1.mpr (by decide),
   (claim_C4_bounce_method _).2 rfl⟩

/-- Claim C6 counterexample: a configuration with a persistent volume, no
EBS volume, and desired count 3 compiles fine — `get_desired_instances`
returns 3 without raising, so the restriction is not tied to persistent
volumes. -/
theorem claim_C6_counterexample :
    ({ persistent_volumes := ["disk"], instances := 3 } : BounceConfig).persistent_volumes ≠ []
    ∧ get_desired_instances { persistent_volumes := ["disk"], instances := 3 } = .ok 3
    ∧ (3 : Nat) ≠ 0 ∧ (3 : Nat) ≠ 1 := by
  refine ⟨by decide, ?_, by decide, by decide⟩
  rfl

/-- Claim C6 (amended): the restriction is triggered by cloud-block-device
(EBS) volumes: with at least one EBS volume, `get_desired_instances`
succeeds exactly for desired counts 0 and 1 and otherwise fails with the
invalid-replica-count error. -/
theorem claim_C6_ebs_replica_restriction (cfg : BounceConfig)
    (hebs : cfg.aws_ebs_volumes ≠ []) :
    ((∃ n, get_desired_instances cfg = .ok n) ↔
      (cfg.instances = 0 ∨ cfg.instances = 1))
    ∧ (cfg.instances ≠ 0 → cfg.instances ≠ 1 →
        get_desired_instances cfg = .error .invalidReplicaCount) := by
  constructor
  · constructor
    · rintro ⟨n, hn⟩
      by_cases h0 : cfg.instances = 0
      · exact Or.inl h0
      · by_cases h1 : cfg.instances = 1
        · exact Or.inr h1
        · simp [get_desired_instances, hebs, h0, h1] at hn
    · intro h
      refine ⟨cfg.instances, ?_⟩
      rcases h with h | h <;> simp [get_desired_instances, h]
  · intro h0 h1
    simp [get_desired_instances, hebs, h0, h1]

/-- Witness for C6 at counts 1 (succeeds) and 3 (fails) with an EBS
volume. -/
theorem claim_C6_witness :
    (∃ n, get_desired_instances { aws_ebs_volumes := ["vol-1"], instances := 1 } = .ok n)
    ∧ get_desired_instances { aws_ebs_volumes := ["vol-1"], instances := 3 } =
        .error .invalidReplicaCount :=
  ⟨(claim_C6_ebs_replica_restriction _ (by decide)).1.mpr (Or.inr rfl),
   (claim_C6_ebs_replica_restriction _ (by decide)).2 (by decide) (by decide)⟩

/-- Claim C10: `max_unavailable` is 0 at zero instances, and at least 1 for
any positive instance count and margin factor in (0, 1], so the derived
pod-disruption budget never forbids disrupting every pod of a running
service. -/
theorem claim_C10_max_unavailable (n : Nat) (f : ℚ) (h0 : 0 < f) (h1 : f ≤ 1) :
    (n = 0 → max_unavailable n f = 0)
    ∧ (0 < n → 1 ≤ max_unavailable n f) := by
  constructor
  · intro h
    simp [max_unavailable, h]
  · intro h
    have hne : n ≠ 0 := Nat.pos_iff_ne_zero.mp h
    simp only [max_unavailable, if_neg hne]
    exact le_max_right _ _

/-- Claim C3 counterexample: at margin factor m = 123/125 = 0.984 (within
(0, 1]) the crossover branch yields maxUnavailable "1%" — the truncation of
100·(1−m) = 1.6 — while the claim's round(100·(1−m)) = 2 would give
"2%". -/
theorem claim_C3_counterexample :
    get_deployment_strategy_config
      { bounce_method := some "crossover", bounce_margin_factor := some (123 / 125) } =
      .ok ⟨"RollingUpdate", some ⟨"100%", "1%"⟩⟩
    ∧ toString (round ((100 : ℚ) * (1 - 123 / 125))) ++ "%" = "2%"
    ∧ ("1%" : String) ≠ "2%" := by
  refine ⟨?_, ?_, by decide⟩
  · have hval : pyInt ((1 - (123 / 125 : ℚ)) * 100) = 1 := by norm_num [pyInt]
    have hst : toString (1 : ℤ) ++ "%" = "1%" := by decide
    simp [get_deployment_strategy_config, get_bounce_method, get_bounce_margin_factor,
      KUBE_DEPLOY_STATEGY_MAP, hval, hst]
  · have hr : round ((100 : ℚ) * (1 - 123 / 125)) = 2 := by norm_num [round_eq]
    rw [hr]
    decide

/-- Claim C3 (amended): with no EBS volume, `crossover` with margin factor
m in (0, 1] gives a RollingUpdate strategy with maxSurge "100%" and
maxUnavailable the integer truncation (floor) of 100·(1−m) followed by "%";
`brutal` gives RollingUpdate with "100%"/"100%"; `downthenup` gives a
Recreate strategy with no surge/unavailable parameters. -/
theorem claim_C3_deployment_strategy (cfg : BounceConfig)
    (hebs : cfg.aws_ebs_volumes = []) :
    (cfg.bounce_method.getD "crossover" = "crossover" →
      0 < get_bounce_margin_factor cfg → get_bounce_margin_factor cfg ≤ 1 →
      get_deployment_strategy_config cfg =
        .ok ⟨"RollingUpdate",
          some ⟨"100%", toString ⌊(1 - get_bounce_margin_factor cfg) * 100⌋ ++ "%"⟩⟩)
    ∧ (cfg.bounce_method.getD "crossover" = "brutal" →
        get_deployment_strategy_config cfg =
          .ok ⟨"RollingUpdate", some ⟨"100%", "100%"⟩⟩)
    ∧ (cfg.bounce_method.getD "crossover" = "downthenup" →
        get_deployment_strategy_config cfg = .ok ⟨"Recreate", none⟩) := by
  have hok : ∀ m, cfg.bounce_method.getD "crossover" = m →
      get_bounce_method cfg = .ok m := by
    intro m hm
    simp [get_bounce_method, hebs, hm]
  refine ⟨?_, ?_, ?_⟩
  · intro hm h0 h1
    have hnn : (0 : ℚ) ≤ (1 - get_bounce_margin_factor cfg) * 100 := by
      have : get_bounce_margin_factor cfg ≤ 1 := h1
      nlinarith
    simp [get_deployment_strategy_config, hok _ hm, KUBE_DEPLOY_STATEGY_MAP,
      pyInt, hnn]
  · intro hm
    simp [get_deployment_strategy_config, hok _ hm, KUBE_DEPLOY_STATEGY_MAP]
  · intro hm
    simp [get_deployment_strategy_config, hok _ hm, KUBE_DEPLOY_STATEGY_MAP]

/-- Witness for C3 at margin 9/10 (exact arithmetic gives "10%"), plus the
brutal and downthenup methods. -/
theorem claim_C3_witness :
    get_deployment_strategy_config
      { bounce_method := some "crossover", bounce_margin_factor := some (9 / 10) } =
      .ok ⟨"RollingUpdate", some ⟨"100%", "10%"⟩⟩
    ∧ get_deployment_strategy_config { bounce_method := some "brutal" } =
        .ok ⟨"RollingUpdate", some ⟨"100%", "100%"⟩⟩
    ∧ get_deployment_strategy_config { bounce_method := some "downthenup" } =
        .ok ⟨"Recreate", none⟩ := by
  refine ⟨?_, ?_, ?_⟩
  · have h := (claim_C3_deployment_strategy
      { bounce_method := some "crossover", bounce_margin_factor := some (9 / 10) }
      rfl).1 rfl (by norm_num [get_bounce_margin_factor]) (by norm_num [get_bounce_margin_factor])
    rw [h]
    norm_num [get_bounce_margin_factor]
    rfl
  · exact (claim_C3_deployment_strategy { bounce_method := some "brutal" } rfl).2.1 rfl
  · exact (claim_C3_deployment_strategy { bounce_method := some "downthenup" } rfl).2.2 rfl

/-- Claim C7: `get_autoscaling_metric_spec` returns no policy exactly when
the desired state is "stop", autoscaling is disabled, the decision policy
is "bespoke", the min or max replica bound is zero, or the metrics provider
is unknown (not mesos_cpu/http/uwsgi) — the unknown-provider case returns
`none` rather than raising (the return type has no error case); in every
other case it returns a policy. -/
theorem claim_C7_autoscaling_no_policy (cfg : AutoscalingConfig)
    (sys : SystemPaastaConfig) (name cluster ns : String) :
    get_autoscaling_metric_spec cfg sys name cluster ns = none ↔
      (cfg.desired_state = "stop" ∨ cfg.autoscaling_enabled = false ∨
       (get_autoscaling_params cfg).decision_policy = "bespoke" ∨
       get_min_instances cfg = 0 ∨ get_max_instances cfg = some 0 ∨
       ((get_autoscaling_params cfg).metrics_provider ≠ "mesos_cpu" ∧
        (get_autoscaling_params cfg).metrics_provider ≠ "http" ∧
        (get_autoscaling_params cfg).metrics_provider ≠ "uwsgi")) := by
  by_cases h1 : cfg.desired_state = "stop"
  · simp [get_autoscaling_metric_spec, h1]
  by_cases h2 : cfg.autoscaling_enabled
  case neg =>
    simp [get_autoscaling_metric_spec, h1, h2]
  by_cases h3 : (get_autoscaling_params cfg).decision_policy = "bespoke"
  · simp [get_autoscaling_metric_spec, h1, h2, h3]
  by_cases h4 : get_min_instances cfg = 0
  · simp [get_autoscaling_metric_spec, h1, h2, h3, h4]
  by_cases h5 : get_max_instances cfg = some 0
  · simp [get_autoscaling_metric_spec, h1, h2, h3, h4, h5]
  by_cases p1 : (get_autoscaling_params cfg).metrics_provider = "mesos_cpu"
  · simp [get_autoscaling_metric_spec, h1, h2, h3, h4, h5, p1]
  by_cases p2 : (get_autoscaling_params cfg).metrics_provider = "http"
  · by_cases hA : ((get_autoscaling_params cfg).forecast_policy = some "moving_average"
        ∨ (get_autoscaling_params cfg).offset.isSome = true
        ∨ sys.hpa_always_uses_external_for_signalfx = true)
    · simp [get_autoscaling_metric_spec, h1, h2, h3, h4, h5, p1, p2, hA]
    · simp [get_autoscaling_metric_spec, h1, h2, h3, h4, h5, p1, p2, hA]
  by_cases p3 : (get_autoscaling_params cfg).metrics_provider = "uwsgi"
  · by_cases hA : ((get_autoscaling_params cfg).forecast_policy = some "moving_average"
        ∨ (get_autoscaling_params cfg).offset.isSome = true
        ∨ sys.hpa_always_uses_external_for_signalfx = true)
    · simp [get_autoscaling_metric_spec, h1, h2, h3, h4, h5, p1, p2, p3, hA]
    · simp [get_autoscaling_metric_spec, h1, h2, h3, h4, h5, p1, p2, p3, hA]
  · simp [get_autoscaling_metric_spec, h1, h2, h3, h4, h5, p1, p2, p3]

/-- Claim C8: `get_node_affinity` returns no object exactly when the merged
requirement list built from the allow-list, the deny-list and the raw
per-label selector configs is empty, and the compiled pod template carries
an affinity structure exactly when the node affinity or the pod
anti-affinity is present — an empty-but-present placement object is never
emitted. -/
theorem claim_C8_node_affinity (cfg : AffinityConfig) :
    (get_node_affinity cfg = .ok none ↔ mergedRequirements cfg = .ok [])
    ∧ (∀ aff, pod_template_affinity cfg = .ok aff →
        (aff ≠ none ↔
          ((∃ na, get_node_affinity cfg = .ok (some na))
            ∨ get_pod_anti_affinity cfg ≠ none))) := by
  constructor
  · cases hm : mergedRequirements cfg with
    | error e => simp [get_node_affinity, hm]
    | ok reqs =>
      by_cases h : reqs.length = 0
      · have hnil : reqs = [] := List.length_eq_zero.mp h
        subst hnil
        simp [get_node_affinity, hm]
      · have hne : reqs ≠ [] := fun hh => h (by simp [hh])
        simp [get_node_affinity, hm, h, hne]
  · intro aff haff
    unfold pod_template_affinity at haff
    cases hna : get_node_affinity cfg with
    | error e => rw [hna] at haff; exact absurd haff (by simp)
    | ok na =>
      rw [hna] at haff
      cases na with
      | some n =>
        cases hpa : get_pod_anti_affinity cfg with
        | some pa =>
          simp only [hpa, Except.ok.injEq] at haff
          subst haff
          exact iff_of_true (by simp) (Or.inl ⟨n, rfl⟩)
        | none =>
          simp only [hpa, Except.ok.injEq] at haff
          subst haff
          exact iff_of_true (by simp) (Or.inl ⟨n, rfl⟩)
      | none =>
        cases hpa : get_pod_anti_affinity cfg with
        | some pa =>
          simp only [hpa, Except.ok.injEq] at haff
          subst haff
          exact iff_of_true (by simp) (Or.inr (by simp [hpa]))
        | none =>
          simp only [hpa, Except.ok.injEq] at haff
          subst haff
          refine iff_of_false (by simp) ?_
          rintro (⟨na, hh⟩ | hh)
          · simp at hh
          · exact hh rfl

/-- Witness for C8: an empty placement config emits no affinity at all,
and a deploy-whitelist produces a present (nonempty) node affinity in the
pod template. -/
theorem claim_C8_witness :
    get_node_affinity {} = .ok none
    ∧ ((some ⟨some ⟨[⟨"yelp.com/habitat", "In", ["uswest1a"]⟩]⟩, none⟩ :
        Option V1Affinity) ≠ none) :=
  ⟨(claim_C8_node_affinity {}).1.mpr rfl,
   ((claim_C8_node_affinity { deploy_whitelist := some ("habitat", ["uswest1a"]) }).2
      (some ⟨some ⟨[⟨"yelp.com/habitat", "In", ["uswest1a"]⟩]⟩, none⟩) rfl).mpr
    (Or.inl ⟨⟨[⟨"yelp.com/habitat", "In", ["uswest1a"]⟩]⟩, rfl⟩)⟩

/-- Witness for C10 at n = 0 and n = 3 with margin factor 1. -/
theorem claim_C10_witness :
    max_unavailable 0 1 = 0 ∧ 1 ≤ max_unavailable 3 1 :=
  ⟨(claim_C10_max_unavailable 0 1 (by norm_num) le_rfl).1 rfl,
   (claim_C10_max_unavailable 3 1 (by norm_num) le_rfl).2 (by norm_num)⟩

/-! ### NameSanitizer lemmas -/

/-- A safe character is below the upper-case range, so lower-casing fixes
it. -/
theorem pyLowerChar_safe {c : Char} (h : SafeChar c) : pyLowerChar c = c := by
  rcases h with ⟨h1, h2⟩ | ⟨h1, h2⟩ | h
  · simp only [pyLowerChar, ite_eq_right_iff]
    omega
  · simp only [pyLowerChar, ite_eq_right_iff]
    omega
  · subst h
    decide

/-- Lower-casing fixes the dash. -/
theorem pyLowerChar_dash : pyLowerChar '-' = '-' := by decide

/-- A safe character is not a dash. -/
theorem SafeChar.ne_dash {c : Char} (h : SafeChar c) : c ≠ '-' := by
  intro hh
  subst hh
  rcases h with ⟨h1, h2⟩ | ⟨h1, h2⟩ | h
  · exact absurd h1 (by decide)
  · exact absurd h1 (by decide)
  · exact absurd h (by decide)

/-- Every character of the underscore-replaced list is a source character
or a dash. -/
theorem mem_replaceUnderscores {c : Char} :
    ∀ {l : List Char}, c ∈ replaceUnderscores l → c ∈ l ∨ c = '-' := by
  intro l
  induction l with
  | nil => intro h; simp [replaceUnderscores] at h
  | cons a r ih =>
    intro h
    by_cases ha : a = '_'
    · subst ha
      simp only [replaceUnderscores, if_pos rfl] at h
      rcases List.mem_cons.mp h with h | h
      · exact Or.inr h
      rcases List.mem_cons.mp h with h | h
      · exact Or.inr h
      rcases ih h with h' | h'
      · exact Or.inl (List.mem_cons_of_mem _ h')
      · exact Or.inr h'
    · simp only [replaceUnderscores, if_neg ha, List.mem_cons] at h
      rcases h with h | h
      · exact Or.inl (by simp [h])
      · rcases ih h with h' | h'
        · exact Or.inl (List.mem_cons_of_mem _ h')
        · exact Or.inr h'

/-- Every character of the marker token is fixed by lower-casing. -/
theorem pyLowerChar_marker : ∀ c ∈ underscoreMarker, pyLowerChar c = c := by
  decide

/-- Mapping a function that fixes every member is the identity. -/
theorem map_pyLower_fix : ∀ (l : List Char), (∀ c ∈ l, pyLowerChar c = c) →
    l.map pyLowerChar = l := by
  intro l
  induction l with
  | nil => intro _; rfl
  | cons a r ih =>
    intro h
    simp only [List.map_cons, h a (by simp),
      ih (fun c hc => h c (List.mem_cons_of_mem _ hc))]

/-- On a list whose characters are all safe, the full sanitiser is the
rewrite stage applied to the underscore replacement (the lower-casing is
the identity there). -/
theorem sanitiseChars_eq_of_safe {l : List Char} (h : ∀ c ∈ l, SafeChar c) :
    sanitiseChars l = rewriteLeadingDashes (replaceUnderscores l) := by
  unfold sanitiseChars
  have hfix : ∀ c ∈ rewriteLeadingDashes (replaceUnderscores l), pyLowerChar c = c := by
    intro c hc
    have hmem : c ∈ underscoreMarker ∨ c ∈ replaceUnderscores l := by
      revert hc
      unfold rewriteLeadingDashes
      split
      · intro hc
        rcases List.mem_append.mp hc with h' | h'
        · exact Or.inl h'
        · rename_i rest heq
          refine Or.inr ?_
          rw [heq]
          exact List.mem_cons_of_mem _ (List.mem_cons_of_mem _ h')
      · exact fun hc => Or.inr hc
    rcases hmem with hm | hm
    · exact pyLowerChar_marker c hm
    · rcases mem_replaceUnderscores hm with h' | h'
      · exact pyLowerChar_safe (h c h')
      · subst h'
        exact pyLowerChar_dash
  exact map_pyLower_fix _ hfix

/-- Unfolding equation: an underscore head. -/
theorem replaceUnderscores_underscore (l : List Char) :
    replaceUnderscores ('_' :: l) = '-' :: '-' :: replaceUnderscores l := by
  simp [replaceUnderscores]

/-- Unfolding equation: a non-underscore head. -/
theorem replaceUnderscores_cons_ne {c : Char} (l : List Char) (h : c ≠ '_') :
    replaceUnderscores (c :: l) = c :: replaceUnderscores l := by
  simp [replaceUnderscores, h]

/-- Unfolding equation: a dash head extends the leading dash run. -/
theorem countLeadDash_dash (l : List Char) :
    countLeadDash ('-' :: l) = countLeadDash l + 1 := by
  simp [countLeadDash]

/-- Unfolding equation: a non-dash head has no leading dash run. -/
theorem countLeadDash_cons_ne {c : Char} (l : List Char) (h : c ≠ '-') :
    countLeadDash (c :: l) = 0 := by
  simp [countLeadDash, h]

/-- The underscore replacement is injective on dash-free inputs. -/
theorem replaceUnderscores_inj : ∀ (l₁ l₂ : List Char),
    (∀ c ∈ l₁, c ≠ '-') → (∀ c ∈ l₂, c ≠ '-') →
    replaceUnderscores l₁ = replaceUnderscores l₂ → l₁ = l₂ := by
  intro l₁
  induction l₁ with
  | nil =>
    intro l₂ _ h₂ h
    cases l₂ with
    | nil => rfl
    | cons d s =>
      by_cases hd : d = '_' <;> simp [replaceUnderscores, hd] at h
  | cons c r ih =>
    intro l₂ h₁ h₂ h
    cases l₂ with
    | nil =>
      by_cases hc : c = '_' <;> simp [replaceUnderscores, hc] at h
    | cons d s =>
      by_cases hc : c = '_' <;> by_cases hd : d = '_'
      · subst hc hd
        rw [replaceUnderscores_underscore, replaceUnderscores_underscore] at h
        simp only [List.cons.injEq, true_and] at h
        rw [ih s (fun x hx => h₁ x (List.mem_cons_of_mem _ hx))
          (fun x hx => h₂ x (List.mem_cons_of_mem _ hx)) h]
      · subst hc
        rw [replaceUnderscores_underscore, replaceUnderscores_cons_ne _ hd] at h
        rw [List.cons.injEq] at h
        exact absurd h.1.symm (h₂ d (List.mem_cons_self _ _))
      · subst hd
        rw [replaceUnderscores_underscore, replaceUnderscores_cons_ne _ hc] at h
        rw [List.cons.injEq] at h
        exact absurd h.1 (h₁ c (List.mem_cons_self _ _))
      · rw [replaceUnderscores_cons_ne _ hc, replaceUnderscores_cons_ne _ hd,
          List.cons.injEq] at h
        rw [h.1, ih s (fun x hx => h₁ x (List.mem_cons_of_mem _ hx))
          (fun x hx => h₂ x (List.mem_cons_of_mem _ hx)) h.2]

/-- The leading dash run of an underscore replacement of a dash-free list
has even length. -/
theorem countLeadDash_replaceUnderscores : ∀ (l : List Char),
    (∀ c ∈ l, c ≠ '-') → countLeadDash (replaceUnderscores l) % 2 = 0 := by
  intro l
  induction l with
  | nil => intro _; rfl
  | cons c r ih =>
    intro hl
    by_cases hc : c = '_'
    · subst hc
      have hr := ih (fun x hx => hl x (List.mem_cons_of_mem _ hx))
      rw [replaceUnderscores_underscore, countLeadDash_dash, countLeadDash_dash]
      omega
    · have hcd : c ≠ '-' := hl c (List.mem_cons_self _ _)
      rw [replaceUnderscores_cons_ne _ hc, countLeadDash_cons_ne _ hcd]

/-- Peeling a dash-free literal off the front of an underscore
replacement. -/
theorem replaceUnderscores_peel : ∀ (p y t : List Char),
    (∀ c ∈ p, c ≠ '-') → replaceUnderscores y = p ++ t →
    ∃ z, y = p ++ z ∧ replaceUnderscores z = t := by
  intro p
  induction p with
  | nil => exact fun y t _ h => ⟨y, rfl, h⟩
  | cons a p ih =>
    intro y t hp h
    cases y with
    | nil => simp [replaceUnderscores] at h
    | cons b y' =>
      by_cases hb : b = '_'
      · subst hb
        rw [replaceUnderscores_underscore, List.cons_append, List.cons.injEq] at h
        exact absurd h.1.symm (hp a (List.mem_cons_self _ _))
      · rw [replaceUnderscores_cons_ne _ hb, List.cons_append, List.cons.injEq] at h
        obtain ⟨z, hz, hzE⟩ := ih y' t (fun c hc => hp c (List.mem_cons_of_mem _ hc)) h.2
        exact ⟨z, by rw [h.1, hz, List.cons_append], hzE⟩

/-- The rewrite stage is the identity on a list that does not start with a
dash. -/
theorem rewriteLeadingDashes_of_head_ne {c : Char} (t : List Char) (h : c ≠ '-') :
    rewriteLeadingDashes (c :: t) = c :: t := by
  unfold rewriteLeadingDashes
  split
  · rename_i heq
    rw [List.cons.injEq] at heq
    exact absurd heq.1 h
  · rfl

/-- The rewrite stage on a double-dash head. -/
theorem rewriteLeadingDashes_dashes (l : List Char) :
    rewriteLeadingDashes ('-' :: '-' :: l) = underscoreMarker ++ l := rfl

/-- The sanitiser is injective on strings made of lower-case letters,
digits and underscores. -/
theorem sanitiseChars_inj (l₁ l₂ : List Char)
    (h₁ : ∀ c ∈ l₁, SafeChar c) (h₂ : ∀ c ∈ l₂, SafeChar c)
    (h : sanitiseChars l₁ = sanitiseChars l₂) : l₁ = l₂ := by
  rw [sanitiseChars_eq_of_safe h₁, sanitiseChars_eq_of_safe h₂] at h
  have hd₁ : ∀ c ∈ l₁, c ≠ '-' := fun c hc => (h₁ c hc).ne_dash
  have hd₂ : ∀ c ∈ l₂, c ≠ '-' := fun c hc => (h₂ c hc).ne_dash
  -- the mixed case is impossible: it would force an odd leading dash run
  have mixed : ∀ (r₁ : List Char) (c₂ : Char) (r₂ : List Char),
      (∀ c ∈ r₁, c ≠ '-') → (∀ c ∈ c₂ :: r₂, c ≠ '-') → c₂ ≠ '_' →
      underscoreMarker ++ replaceUnderscores r₁ ≠
        rewriteLeadingDashes (replaceUnderscores (c₂ :: r₂)) := by
    intro r₁ c₂ r₂ hr₁ hr₂ hc₂ hcontra
    have hc₂d : c₂ ≠ '-' := hr₂ c₂ (List.mem_cons_self _ _)
    rw [replaceUnderscores_cons_ne _ hc₂] at hcontra
    rw [rewriteLeadingDashes_of_head_ne _ hc₂d] at hcontra
    simp only [underscoreMarker, List.cons_append, List.nil_append,
      List.cons.injEq] at hcontra
    obtain ⟨z, hz, hzE⟩ := replaceUnderscores_peel
      ['n', 'd', 'e', 'r', 's', 'c', 'o', 'r', 'e'] r₂
      ('-' :: replaceUnderscores r₁) (by decide)
      (by rw [← hcontra.2]; rfl)
    have hzfree : ∀ c ∈ z, c ≠ '-' := fun c hc =>
      hr₂ c (List.mem_cons_of_mem _ (by rw [hz]; exact List.mem_append_right _ hc))
    have he₁ := countLeadDash_replaceUnderscores r₁ hr₁
    have hez := countLeadDash_replaceUnderscores z hzfree
    rw [hzE, countLeadDash_dash] at hez
    omega
  cases l₁ with
  | nil =>
    cases l₂ with
    | nil => rfl
    | cons c₂ r₂ =>
      exfalso
      by_cases hc : c₂ = '_'
      · subst hc
        rw [replaceUnderscores_underscore, rewriteLeadingDashes_dashes] at h
        simp [replaceUnderscores, rewriteLeadingDashes, underscoreMarker] at h
      · have hcd : c₂ ≠ '-' := hd₂ _ (List.mem_cons_self _ _)
        rw [replaceUnderscores_cons_ne _ hc,
          rewriteLeadingDashes_of_head_ne _ hcd] at h
        simp [replaceUnderscores, rewriteLeadingDashes] at h
  | cons c₁ r₁ =>
    cases l₂ with
    | nil =>
      exfalso
      by_cases hc : c₁ = '_'
      · subst hc
        rw [replaceUnderscores_underscore, rewriteLeadingDashes_dashes] at h
        simp [replaceUnderscores, rewriteLeadingDashes, underscoreMarker] at h
      · have hcd : c₁ ≠ '-' := hd₁ _ (List.mem_cons_self _ _)
        rw [replaceUnderscores_cons_ne _ hc,
          rewriteLeadingDashes_of_head_ne _ hcd] at h
        simp [replaceUnderscores, rewriteLeadingDashes] at h
    | cons c₂ r₂ =>
      have ht₁ : ∀ c ∈ r₁, c ≠ '-' := fun c hc => hd₁ c (List.mem_cons_of_mem _ hc)
      have ht₂ : ∀ c ∈ r₂, c ≠ '-' := fun c hc => hd₂ c (List.mem_cons_of_mem _ hc)
      by_cases hc₁ : c₁ = '_' <;> by_cases hc₂ : c₂ = '_'
      · subst hc₁
        subst hc₂
        rw [replaceUnderscores_underscore, replaceUnderscores_underscore,
          rewriteLeadingDashes_dashes, rewriteLeadingDashes_dashes] at h
        have := List.append_cancel_left h
        rw [replaceUnderscores_inj r₁ r₂ ht₁ ht₂ this]
      · exfalso
        subst hc₁
        rw [replaceUnderscores_underscore, rewriteLeadingDashes_dashes] at h
        exact mixed r₁ c₂ r₂ ht₁ hd₂ hc₂ h
      · exfalso
        subst hc₂
        rw [replaceUnderscores_underscore, rewriteLeadingDashes_dashes] at h
        exact mixed r₂ c₁ r₁ ht₂ hd₁ hc₁ h.symm
      · have d₁ : c₁ ≠ '-' := hd₁ _ (List.mem_cons_self _ _)
        have d₂ : c₂ ≠ '-' := hd₂ _ (List.mem_cons_self _ _)
        rw [replaceUnderscores_cons_ne _ hc₁, replaceUnderscores_cons_ne _ hc₂,
          rewriteLeadingDashes_of_head_ne _ d₁,
          rewriteLeadingDashes_of_head_ne _ d₂, List.cons.injEq] at h
        rw [h.1, replaceUnderscores_inj r₁ r₂ ht₁ ht₂ h.2]

/-- Claim C9 counterexample: on the stated domain (letters, digits, `-`,
`_`) the sanitiser is not injective — the escape sequence `--` collides
with a literal double dash: "a_b" and "a--b" are distinct inputs in the
domain with the same output.  (Upper-case letters collide too: "A" and "a"
both map to "a".) -/
theorem claim_C9_counterexample :
    sanitise_kubernetes_name "a_b" = sanitise_kubernetes_name "a--b"
    ∧ ("a_b" : String) ≠ "a--b"
    ∧ sanitise_kubernetes_name "A" = sanitise_kubernetes_name "a"
    ∧ ("A" : String) ≠ "a" := by
  refine ⟨rfl, by decide, rfl, by decide⟩

/-- Claim C9 (amended): `sanitise_kubernetes_name` is injective on the set
of inputs that use only lower-case letters, digits and `_` (the stated
domain must exclude `-`, which collides with the underscore escape, and
upper-case letters, which collide under lower-casing). -/
theorem claim_C9_sanitiser_injective (s t : String)
    (hs : ∀ c ∈ s.data, SafeChar c) (ht : ∀ c ∈ t.data, SafeChar c)
    (hne : s ≠ t) :
    sanitise_kubernetes_name s ≠ sanitise_kubernetes_name t := by
  intro h
  apply hne
  have hd : s.data = t.data := by
    refine sanitiseChars_inj s.data t.data hs ht ?_
    have := congrArg String.data h
    simpa [sanitise_kubernetes_name] using this
  cases s with
  | mk d₁ =>
    cases t with
    | mk d₂ => exact congrArg String.mk hd

/-- Witness for C9 at the distinct safe inputs "paasta_api" and
"paastaapi". -/
theorem claim_C9_witness :
    sanitise_kubernetes_name "paasta_api" ≠ sanitise_kubernetes_name "paastaapi" :=
  claim_C9_sanitiser_injective _ _ (by decide) (by decide) (by decide)

/-! ### ConfigHashEngine lemmas -/

/-- Characters with equal code points are equal. -/
theorem char_toNat_inj {c d : Char} (h : c.toNat = d.toNat) : c = d :=
  Char.eq_of_val_eq (UInt32.toNat.inj h)

/-- `lexLe` is total. -/
theorem lexLe_total (a b : List Char) : lexLe a b = true ∨ lexLe b a = true := by
  induction a generalizing b with
  | nil => left; rfl
  | cons c cs ih =>
    cases b with
    | nil => right; rfl
    | cons d ds =>
      simp only [lexLe]
      rcases Nat.lt_trichotomy c.toNat d.toNat with h | h | h
      · left; simp [h]
      · have h1 : ¬ c.toNat < d.toNat := by omega
        have h2 : ¬ d.toNat < c.toNat := by omega
        simpa [h1, h2] using ih ds
      · right; simp [h]

/-- `lexLe` is transitive. -/
theorem lexLe_trans {a b c : List Char} (h₁ : lexLe a b = true) (h₂ : lexLe b c = true) :
    lexLe a c = true := by
  induction a generalizing b c with
  | nil => rfl
  | cons x xs ih =>
    cases b with
    | nil => simp [lexLe] at h₁
    | cons y ys =>
      cases c with
      | nil => simp [lexLe] at h₂
      | cons z zs =>
        simp only [lexLe] at h₁ h₂ ⊢
        rcases Nat.lt_trichotomy x.toNat y.toNat with hxy | hxy | hxy
        · rcases Nat.lt_trichotomy y.toNat z.toNat with hyz | hyz | hyz
          · simp [show x.toNat < z.toNat by omega]
          · simp [show x.toNat < z.toNat by omega]
          · simp [show ¬ y.toNat < z.toNat by omega,
              show z.toNat < y.toNat by omega] at h₂
        · rcases Nat.lt_trichotomy y.toNat z.toNat with hyz | hyz | hyz
          · simp [show x.toNat < z.toNat by omega]
          · have hxz : ¬ x.toNat < z.toNat := by omega
            have hzx : ¬ z.toNat < x.toNat := by omega
            simp only [if_neg hxz, if_neg hzx]
            simp only [show ¬ x.toNat < y.toNat by omega,
              show ¬ y.toNat < x.toNat by omega, if_neg, ite_false] at h₁
            simp only [show ¬ y.toNat < z.toNat by omega,
              show ¬ z.toNat < y.toNat by omega, if_neg, ite_false] at h₂
            exact ih h₁ h₂
          · simp [show ¬ y.toNat < z.toNat by omega,
              show z.toNat < y.toNat by omega] at h₂
        · simp [show ¬ x.toNat < y.toNat by omega,
            show y.toNat < x.toNat by omega] at h₁

/-- `lexLe` is antisymmetric. -/
theorem lexLe_antisymm {a b : List Char} (h₁ : lexLe a b = true) (h₂ : lexLe b a = true) :
    a = b := by
  induction a generalizing b with
  | nil =>
    cases b with
    | nil => rfl
    | cons d ds => simp [lexLe] at h₂
  | cons c cs ih =>
    cases b with
    | nil => simp [lexLe] at h₁
    | cons d ds =>
      simp only [lexLe] at h₁ h₂
      rcases Nat.lt_trichotomy c.toNat d.toNat with hcd | hcd | hcd
      · simp [show ¬ d.toNat < c.toNat by omega,
          show c.toNat < d.toNat by omega] at h₂
      · have n1 : ¬ c.toNat < d.toNat := by omega
        have n2 : ¬ d.toNat < c.toNat := by omega
        simp only [if_neg n1, if_neg n2] at h₁
        simp only [if_neg n2, if_neg n1] at h₂
        rw [char_toNat_inj hcd, ih h₁ h₂]
      · simp [show ¬ c.toNat < d.toNat by omega,
          show d.toNat < c.toNat by omega] at h₁

/-- Key order is total. -/
theorem keyLe_total (a b : String) : keyLe a b = true ∨ keyLe b a = true :=
  lexLe_total a.data b.data

/-- Key order is transitive. -/
theorem keyLe_trans {a b c : String} (h₁ : keyLe a b = true) (h₂ : keyLe b c = true) :
    keyLe a c = true :=
  lexLe_trans h₁ h₂

/-- Key order is antisymmetric. -/
theorem keyLe_antisymm {a b : String} (h₁ : keyLe a b = true) (h₂ : keyLe b a = true) :
    a = b := by
  cases a with
  | mk la =>
    cases b with
    | mk lb => exact congrArg String.mk (lexLe_antisymm h₁ h₂)

/-- Sorting bindings by key permutes them. -/
theorem sortPairs_perm (l : List KV) : List.Perm (sortPairs l) l :=
  List.perm_insertionSort _ l

/-- Sorting bindings by key sorts them. -/
theorem sortPairs_sorted (l : List KV) : List.Sorted kvLe (sortPairs l) := by
  haveI : IsTotal KV kvLe := ⟨fun a b => keyLe_total a.1 b.1⟩
  haveI : IsTrans KV kvLe := ⟨fun _ _ _ h₁ h₂ => keyLe_trans h₁ h₂⟩
  exact List.sorted_insertionSort _ l

/-- The keys of a key-sorted list with no duplicate keys are strictly
sorted, so two such lists that are permutations of one another are
equal. -/
theorem sortPairs_eq_of_perm {l₁ l₂ : List KV} (h : List.Perm l₁ l₂)
    (hn : NodupKeys l₁) : sortPairs l₁ = sortPairs l₂ := by
  have hn₂ : NodupKeys l₂ := ((h.map Prod.fst).nodup_iff).mp hn
  have hp : List.Perm (sortPairs l₁) (sortPairs l₂) :=
    (sortPairs_perm l₁).trans (h.trans (sortPairs_perm l₂).symm)
  have strict : ∀ (l : List KV), List.Sorted kvLe l → NodupKeys l →
      List.Sorted (fun a b : KV => keyLe a.1 b.1 = true ∧ a.1 ≠ b.1) l := by
    intro l hs hnd
    have hne : List.Pairwise (fun a b : KV => a.1 ≠ b.1) l :=
      List.pairwise_map.mp hnd
    exact (hs.and hne).imp (fun h => ⟨h.1, h.2⟩)
  have hns₁ : NodupKeys (sortPairs l₁) :=
    (((sortPairs_perm l₁).map Prod.fst).nodup_iff).mpr hn
  have hns₂ : NodupKeys (sortPairs l₂) :=
    (((sortPairs_perm l₂).map Prod.fst).nodup_iff).mpr hn₂
  haveI : IsAntisymm KV (fun a b : KV => keyLe a.1 b.1 = true ∧ a.1 ≠ b.1) :=
    ⟨fun a b h₁ h₂ => absurd (keyLe_antisymm h₁.1 h₂.1) h₁.2⟩
  exact List.eq_of_perm_of_sorted hp
    (strict _ (sortPairs_sorted l₁) hns₁) (strict _ (sortPairs_sorted l₂) hns₂)

/-- `canonKvs` maps `canon` over values. -/
theorem canonKvs_eq_map (kvs : List KV) :
    canonKvs kvs = kvs.map (fun kv => (kv.1, canon kv.2)) := by
  induction kvs with
  | nil => rfl
  | cons kv rest ih =>
    obtain ⟨k, v⟩ := kv
    simp [canonKvs, ih]

/-- `canonKvs` keeps the key list. -/
theorem keys_canonKvs (kvs : List KV) :
    (canonKvs kvs).map Prod.fst = kvs.map Prod.fst := by
  rw [canonKvs_eq_map, List.map_map]
  rfl

/-- `canonKvs` keeps keys duplicate-free. -/
theorem NodupKeys_canonKvs {kvs : List KV} (h : NodupKeys kvs) :
    NodupKeys (canonKvs kvs) := by
  unfold NodupKeys
  rw [keys_canonKvs]
  exact h

/-- The canonical form of a map unfolds to the sorted canonical
bindings. -/
theorem canon_vmap (kvs : List KV) :
    canon (.vmap kvs) = .vmap (sortPairs (canonKvs kvs)) := by
  simp [canon]

/-- Lookup in `canonKvs` is `canon` of the lookup. -/
theorem lookupK_canonKvs (k : String) (l : List KV) :
    lookupK k (canonKvs l) = (lookupK k l).map canon := by
  induction l with
  | nil => rfl
  | cons kv rest ih =>
    obtain ⟨k', v⟩ := kv
    by_cases hk : k' = k <;> simp [canonKvs, lookupK, hk, ih]

/-- Lookup equation: matching head. -/
theorem lookupK_cons_self (k : String) (v : Value) (rest : List KV) :
    lookupK k ((k, v) :: rest) = some v := by
  simp [lookupK]

/-- Lookup equation: non-matching head. -/
theorem lookupK_cons_ne {k' k : String} (h : k' ≠ k) (v : Value) (rest : List KV) :
    lookupK k ((k', v) :: rest) = lookupK k rest := by
  simp [lookupK, h]

/-- A key outside the key list looks up to nothing, and conversely. -/
theorem lookupK_eq_none_iff {k : String} {l : List KV} :
    lookupK k l = none ↔ k ∉ l.map Prod.fst := by
  induction l with
  | nil => simp [lookupK]
  | cons kv rest ih =>
    obtain ⟨k', v⟩ := kv
    by_cases hk : k' = k
    · subst hk
      simp [lookupK_cons_self]
    · rw [lookupK_cons_ne hk, ih]
      simp only [List.map_cons, List.mem_cons]
      constructor
      · intro h hh
        rcases hh with hh | hh
        · exact hk hh.symm
        · exact h hh
      · intro h hh
        exact h (Or.inr hh)

/-- Lookup distributes over append, left list first. -/
theorem lookupK_append (k : String) (a b : List KV) :
    lookupK k (a ++ b) =
      (match lookupK k a with
       | some v => some v
       | none => lookupK k b) := by
  induction a with
  | nil => simp [lookupK]
  | cons kv rest ih =>
    obtain ⟨k', v⟩ := kv
    by_cases hk : k' = k <;> simp [lookupK, hk, ih]

/-- A successful lookup splits the list around the first binding of the
key. -/
theorem lookupK_split {k : String} {v : Value} :
    ∀ {l : List KV}, lookupK k l = some v →
    ∃ pre post, l = pre ++ (k, v) :: post ∧ ∀ kv ∈ pre, kv.1 ≠ k := by
  intro l
  induction l with
  | nil => intro h; simp [lookupK] at h
  | cons kv rest ih =>
    intro h
    obtain ⟨k', v'⟩ := kv
    by_cases hk : k' = k
    · subst hk
      rw [lookupK_cons_self, Option.some.injEq] at h
      subst h
      exact ⟨[], rest, rfl, by simp⟩
    · rw [lookupK_cons_ne hk] at h
      obtain ⟨pre, post, hsplit, hpre⟩ := ih h
      refine ⟨(k', v') :: pre, post, by rw [hsplit, List.cons_append], ?_⟩
      intro kv hkv
      rcases List.mem_cons.mp hkv with h' | h'
      · rw [h']
        exact hk
      · exact hpre kv h'

/-- Lookups agree across a permutation when keys are duplicate-free. -/
theorem lookupK_eq_of_perm {l₁ l₂ : List KV} (hn : NodupKeys l₁)
    (h : List.Perm l₁ l₂) (k : String) : lookupK k l₁ = lookupK k l₂ := by
  induction h with
  | nil => rfl
  | cons x h ih =>
    obtain ⟨kx, vx⟩ := x
    by_cases hk : kx = k
    · simp [lookupK, hk]
    · have hn' : NodupKeys _ := (List.nodup_cons.mp hn).2
      simp [lookupK, hk, ih hn']
  | swap x y l =>
    obtain ⟨kx, vx⟩ := x
    obtain ⟨ky, vy⟩ := y
    have hxy : ky ≠ kx := by
      have := (List.nodup_cons.mp hn).1
      intro hh
      exact this (by simp [hh])
    by_cases h1 : ky = k
    · subst h1
      simp [lookupK, hxy.symm]
    · by_cases h2 : kx = k <;> simp [lookupK, h1, h2]
  | trans h₁ h₂ ih₁ ih₂ =>
    have hnmid : NodupKeys _ := ((h₁.map Prod.fst).nodup_iff).mp hn
    exact (ih₁ hn).trans (ih₂ hnmid)

/-- Skipping a non-matching middle binding does not change a lookup. -/
theorem lookupK_middle_skip {k' k : String} (h : k' ≠ k) (v : Value)
    (pre post : List KV) :
    lookupK k' (pre ++ (k, v) :: post) = lookupK k' (pre ++ post) := by
  rw [lookupK_append, lookupK_append, lookupK_cons_ne (fun hh => h hh.symm)]

/-- Two duplicate-key-free binding lists with the same lookups are
permutations of each other — the dictionary extensionality behind the
stability of the hash. -/
theorem perm_of_lookupK_eq : ∀ (l₁ l₂ : List KV), NodupKeys l₁ → NodupKeys l₂ →
    (∀ k, lookupK k l₁ = lookupK k l₂) → List.Perm l₁ l₂ := by
  intro l₁
  induction l₁ with
  | nil =>
    intro l₂ _ _ hl
    cases l₂ with
    | nil => rfl
    | cons kv t =>
      obtain ⟨k, v⟩ := kv
      have := hl k
      rw [lookupK_cons_self] at this
      simp [lookupK] at this
  | cons kv t ih =>
    intro l₂ hn₁ hn₂ hl
    obtain ⟨k, v⟩ := kv
    have hk : lookupK k l₂ = some v := by
      have := hl k
      rw [lookupK_cons_self] at this
      exact this.symm
    obtain ⟨pre, post, rfl, hpre⟩ := lookupK_split hk
    have hkpre : k ∉ pre.map Prod.fst := by
      intro hh
      obtain ⟨kv', hkv', hfst⟩ := List.mem_map.mp hh
      exact hpre kv' hkv' hfst
    have hkpost : k ∉ post.map Prod.fst := by
      have : (pre ++ (k, v) :: post).map Prod.fst =
          pre.map Prod.fst ++ k :: post.map Prod.fst := by simp
      have hnd := hn₂
      unfold NodupKeys at hnd
      rw [this] at hnd
      have := (List.nodup_append.mp hnd).2.1
      exact (List.nodup_cons.mp this).1
    have hkt : k ∉ t.map Prod.fst := (List.nodup_cons.mp hn₁).1
    have hnt : NodupKeys t := (List.nodup_cons.mp hn₁).2
    have hnpp : NodupKeys (pre ++ post) := by
      have hsub : List.Sublist (pre ++ post) (pre ++ (k, v) :: post) :=
        List.Sublist.append_left (List.sublist_cons_self _ _) _
      exact List.Nodup.sublist (hsub.map Prod.fst) hn₂
    have hlookups : ∀ k', lookupK k' t = lookupK k' (pre ++ post) := by
      intro k'
      by_cases hkk : k' = k
      · subst hkk
        rw [lookupK_eq_none_iff.mpr hkt, Eq.comm, lookupK_eq_none_iff]
        rw [List.map_append, List.mem_append]
        rintro (hh | hh)
        · exact hkpre hh
        · exact hkpost hh
      · have := hl k'
        rw [lookupK_cons_ne (fun hh => hkk hh.symm)] at this
        rw [this]
        exact lookupK_middle_skip hkk v pre post
    refine List.Perm.trans (List.Perm.cons _ (ih (pre ++ post) hnt hnpp hlookups))
      List.perm_middle.symm

/-- `filterBlacklist` preserves duplicate-free keys. -/
theorem NodupKeys_filterBlacklist {l : List KV} (h : NodupKeys l) :
    NodupKeys (filterBlacklist l) :=
  List.Nodup.sublist ((List.filter_sublist _).map Prod.fst) h

/-- Filtering does not change a non-blacklisted lookup. -/
theorem lookupK_filterBlacklist_of_ne {k : String} (hk : k ≠ "replicas")
    (l : List KV) : lookupK k (filterBlacklist l) = lookupK k l := by
  induction l with
  | nil => rfl
  | cons kv rest ih =>
    obtain ⟨k', v⟩ := kv
    by_cases hb : k' = "replicas"
    · subst hb
      have : filterBlacklist (("replicas", v) :: rest) = filterBlacklist rest := by
        simp [filterBlacklist, CONFIG_HASH_BLACKLIST]
      rw [this, ih, lookupK_cons_ne (fun hh => hk hh.symm)]
    · have : filterBlacklist ((k', v) :: rest) = (k', v) :: filterBlacklist rest := by
        simp [filterBlacklist, CONFIG_HASH_BLACKLIST, hb]
      rw [this]
      by_cases hk' : k' = k
      · subst hk'
        rw [lookupK_cons_self, lookupK_cons_self]
      · rw [lookupK_cons_ne hk', lookupK_cons_ne hk', ih]

/-- The blacklisted key is gone after filtering. -/
theorem lookupK_filterBlacklist_replicas (l : List KV) :
    lookupK "replicas" (filterBlacklist l) = none := by
  rw [lookupK_eq_none_iff]
  intro hh
  obtain ⟨kv, hkv, hfst⟩ := List.mem_map.mp hh
  have := List.of_mem_filter hkv
  rw [hfst] at this
  simp [CONFIG_HASH_BLACKLIST] at this

/-- `setKey` preserves duplicate-free keys. -/
theorem NodupKeys_setKey {l : List KV} (h : NodupKeys l) (k : String) (v : Value) :
    NodupKeys (setKey l k v) := by
  unfold setKey
  split
  · rename_i hany
    have : (l.map fun kv => if kv.1 = k then (k, v) else kv).map Prod.fst =
        l.map Prod.fst := by
      rw [List.map_map]
      refine List.map_congr_left ?_
      intro kv _
      by_cases hkv : kv.1 = k
      · simp [hkv]
      · simp [hkv]
    unfold NodupKeys
    rw [this]
    exact h
  · rename_i hany
    unfold NodupKeys
    rw [List.map_append, List.nodup_append]
    refine ⟨h, by simp, ?_⟩
    intro a ha hb
    simp only [List.map_cons, List.map_nil, List.mem_singleton] at hb
    subst hb
    obtain ⟨kv, hkv, hfst⟩ := List.mem_map.mp ha
    exact hany (List.any_eq_true.mpr ⟨kv, hkv, by simp [hfst]⟩)

/-- Lookup of the assigned key in the in-place-update image. -/
theorem lookupK_mapUpdate_self (l : List KV) (k : String) (v : Value)
    (hmem : k ∈ l.map Prod.fst) :
    lookupK k (l.map (fun kv => if kv.1 = k then (k, v) else kv)) = some v := by
  induction l with
  | nil => simp at hmem
  | cons kv rest ih =>
    obtain ⟨k₁, v₁⟩ := kv
    by_cases hk : k₁ = k
    · subst hk
      have hhead : (fun (kv : KV) => if kv.1 = k₁ then (k₁, v) else kv) (k₁, v₁) =
          (k₁, v) := by simp
      rw [List.map_cons]
      simp only [hhead, if_true]
      exact lookupK_cons_self _ _ _
    · simp only [List.map_cons]
      rw [show (if ((k₁, v₁) : KV).1 = k then (k, v) else (k₁, v₁)) = (k₁, v₁) by
        simp [hk]]
      rw [lookupK_cons_ne hk]
      apply ih
      simp only [List.map_cons, List.mem_cons] at hmem
      rcases hmem with hh | hh
      · exact absurd hh.symm hk
      · exact hh

/-- Lookup of any other key in the in-place-update image. -/
theorem lookupK_mapUpdate_ne {k' k : String} (h : k' ≠ k) (v : Value) :
    ∀ (l : List KV),
    lookupK k' (l.map (fun kv => if kv.1 = k then (k, v) else kv)) = lookupK k' l := by
  intro l
  induction l with
  | nil => rfl
  | cons kv rest ih =>
    obtain ⟨k₁, v₁⟩ := kv
    by_cases hk : k₁ = k
    · subst hk
      have hhead : (fun (kv : KV) => if kv.1 = k₁ then (k₁, v) else kv) (k₁, v₁) =
          (k₁, v) := by simp
      rw [List.map_cons]
      simp only [hhead, if_true]
      rw [lookupK_cons_ne (fun hh => h hh.symm),
        lookupK_cons_ne (fun hh => h hh.symm)]
      exact ih
    · simp only [List.map_cons]
      rw [show (if ((k₁, v₁) : KV).1 = k then (k, v) else (k₁, v₁)) = (k₁, v₁) by
        simp [hk]]
      by_cases hk₁ : k₁ = k'
      · subst hk₁
        rw [lookupK_cons_self, lookupK_cons_self]
      · rw [lookupK_cons_ne hk₁, lookupK_cons_ne hk₁, ih]

/-- Lookup of the assigned key after `setKey`. -/
theorem lookupK_setKey_self (l : List KV) (k : String) (v : Value) :
    lookupK k (setKey l k v) = some v := by
  unfold setKey
  split
  · rename_i hany
    obtain ⟨kv, hkv, hfst⟩ := List.any_eq_true.mp hany
    refine lookupK_mapUpdate_self l k v ?_
    simp only [decide_eq_true_eq] at hfst
    exact List.mem_map.mpr ⟨kv, hkv, hfst⟩
  · rw [lookupK_append]
    rename_i hany
    have hnone : lookupK k l = none := by
      rw [lookupK_eq_none_iff]
      intro hh
      obtain ⟨kv, hkv, hfst⟩ := List.mem_map.mp hh
      exact hany (List.any_eq_true.mpr ⟨kv, hkv, by simp [hfst]⟩)
    rw [hnone]
    exact lookupK_cons_self _ _ _

/-- Lookup of any other key is unchanged by `setKey`. -/
theorem lookupK_setKey_ne {k' k : String} (h : k' ≠ k) (l : List KV) (v : Value) :
    lookupK k' (setKey l k v) = lookupK k' l := by
  unfold setKey
  split
  · exact lookupK_mapUpdate_ne h v l
  · rw [lookupK_append]
    cases hl : lookupK k' l with
    | some w => rfl
    | none => rw [lookupK_cons_ne (fun hh => h hh.symm)]; rfl

/-- Dictionary extensionality for the hash: two duplicate-key-free maps
whose lookups agree up to canonicalisation have the same canonical form. -/
theorem canon_vmap_eq_of_lookup {a b : List KV} (hna : NodupKeys a) (hnb : NodupKeys b)
    (h : ∀ k, (lookupK k a).map canon = (lookupK k b).map canon) :
    canon (.vmap a) = canon (.vmap b) := by
  rw [canon_vmap, canon_vmap]
  congr 1
  refine sortPairs_eq_of_perm ?_ (NodupKeys_canonKvs hna)
  refine perm_of_lookupK_eq _ _ (NodupKeys_canonKvs hna) (NodupKeys_canonKvs hnb) ?_
  intro k
  rw [lookupK_canonKvs, lookupK_canonKvs]
  exact h k

/-- Conversely, equal canonical forms have equal canonicalised lookups. -/
theorem lookupK_canon_of_canon_vmap_eq {a b : List KV} (hna : NodupKeys a)
    (hnb : NodupKeys b) (h : canon (.vmap a) = canon (.vmap b)) (k : String) :
    (lookupK k a).map canon = (lookupK k b).map canon := by
  rw [canon_vmap, canon_vmap] at h
  have hs : sortPairs (canonKvs a) = sortPairs (canonKvs b) := by
    injection h
  have h₁ : lookupK k (canonKvs a) = lookupK k (sortPairs (canonKvs a)) :=
    lookupK_eq_of_perm (NodupKeys_canonKvs hna) (sortPairs_perm _).symm k
  have h₂ : lookupK k (canonKvs b) = lookupK k (sortPairs (canonKvs b)) :=
    lookupK_eq_of_perm (NodupKeys_canonKvs hnb) (sortPairs_perm _).symm k
  rw [← lookupK_canonKvs, ← lookupK_canonKvs, h₁, h₂, hs]

/-- The computed shape of a successful `sanitize_for_config_hash`. -/
theorem sanitize_eq {m spec : List KV} (s : List KV)
    (hsp : lookupK "spec" m = some (.vmap spec)) :
    sanitize_for_config_hash m s =
      some (setKey (setKey (filterBlacklist m) "spec" (.vmap (filterBlacklist spec)))
        "paasta_secrets" (.vmap s)) := by
  simp only [sanitize_for_config_hash]
  rw [lookupK_filterBlacklist_of_ne (by decide) m, hsp]

/-- The lookups of a sanitized manifest: secrets, the filtered spec, the
dropped replica count, everything else untouched. -/
theorem lookupK_sanitized (m spec s : List KV) (k : String) :
    lookupK k (setKey (setKey (filterBlacklist m) "spec" (.vmap (filterBlacklist spec)))
        "paasta_secrets" (.vmap s)) =
      (if k = "paasta_secrets" then some (.vmap s)
       else if k = "spec" then some (.vmap (filterBlacklist spec))
       else if k = "replicas" then none
       else lookupK k m) := by
  by_cases h1 : k = "paasta_secrets"
  · subst h1
    rw [lookupK_setKey_self]
    simp
  · rw [lookupK_setKey_ne h1]
    by_cases h2 : k = "spec"
    · subst h2
      rw [lookupK_setKey_self]
      simp
    · rw [lookupK_setKey_ne h2]
      by_cases h3 : k = "replicas"
      · subst h3
        rw [lookupK_filterBlacklist_replicas]
        simp [h1, h2]
      · rw [lookupK_filterBlacklist_of_ne h3]
        simp [h1, h2, h3]

/-- Claim C2: two manifests that agree everywhere except on the replica
count field (at the top level or inside the spec mapping), one of them
presented in any key order, sanitize to the same canonical content and
hence the same config hash; and since the sanitized content includes the
secret fingerprints, changing only a secret fingerprint changes the hash
while the manifest stays fixed. -/
theorem claim_C2_sanitize_config_hash
    (m₁ m₂ m₂p spec₁ spec₂ s₁ s₂ : List KV)
    (hnd₁ : NodupKeys m₁) (hnd₂ : NodupKeys m₂)
    (hnds₁ : NodupKeys spec₁) (hnds₂ : NodupKeys spec₂)
    (hsp₁ : lookupK "spec" m₁ = some (.vmap spec₁))
    (hsp₂ : lookupK "spec" m₂ = some (.vmap spec₂))
    (htop : ∀ k, k ≠ "replicas" → k ≠ "spec" → lookupK k m₁ = lookupK k m₂)
    (hspec : ∀ k, k ≠ "replicas" → lookupK k spec₁ = lookupK k spec₂)
    (hperm : List.Perm m₂p m₂) :
    (∃ r₁ r₂, sanitize_for_config_hash m₁ s₁ = some r₁
      ∧ sanitize_for_config_hash m₂p s₁ = some r₂
      ∧ get_config_hash r₁ = get_config_hash r₂)
    ∧ (canon (.vmap s₁) ≠ canon (.vmap s₂) →
        ∀ r r', sanitize_for_config_hash m₁ s₁ = some r →
          sanitize_for_config_hash m₁ s₂ = some r' →
          get_config_hash r ≠ get_config_hash r') := by
  have hnd₂p : NodupKeys m₂p := ((hperm.map Prod.fst).nodup_iff).mpr hnd₂
  have hlook₂p : ∀ k, lookupK k m₂p = lookupK k m₂ := fun k =>
    lookupK_eq_of_perm hnd₂p hperm k
  have hsp₂p : lookupK "spec" m₂p = some (.vmap spec₂) := by
    rw [hlook₂p]
    exact hsp₂
  have hndr : ∀ (m : List KV), NodupKeys m → ∀ spec s,
      NodupKeys (setKey (setKey (filterBlacklist m) "spec"
        (.vmap (filterBlacklist spec))) "paasta_secrets" (.vmap s)) :=
    fun m hm spec s =>
      NodupKeys_setKey (NodupKeys_setKey (NodupKeys_filterBlacklist hm) _ _) _ _
  constructor
  · refine ⟨_, _, sanitize_eq s₁ hsp₁, sanitize_eq s₁ hsp₂p, ?_⟩
    unfold get_config_hash
    refine canon_vmap_eq_of_lookup (hndr m₁ hnd₁ spec₁ s₁) (hndr m₂p hnd₂p spec₂ s₁) ?_
    intro k
    rw [lookupK_sanitized, lookupK_sanitized]
    by_cases h1 : k = "paasta_secrets"
    · simp [h1]
    by_cases h2 : k = "spec"
    · subst h2
      simp
      refine canon_vmap_eq_of_lookup (NodupKeys_filterBlacklist hnds₁)
        (NodupKeys_filterBlacklist hnds₂) ?_
      intro k'
      by_cases hk' : k' = "replicas"
      · subst hk'
        rw [lookupK_filterBlacklist_replicas, lookupK_filterBlacklist_replicas]
      · rw [lookupK_filterBlacklist_of_ne hk', lookupK_filterBlacklist_of_ne hk',
          hspec k' hk']
    by_cases h3 : k = "replicas"
    · simp [h1, h2, h3]
    · simp only [if_neg h1, if_neg h2, if_neg h3]
      rw [hlook₂p k, htop k h3 h2]
  · intro hss r r' hr hr' heq
    rw [sanitize_eq s₁ hsp₁] at hr
    rw [sanitize_eq s₂ hsp₁] at hr'
    rw [Option.some.injEq] at hr hr'
    subst hr
    subst hr'
    have hsec := lookupK_canon_of_canon_vmap_eq
      (hndr m₁ hnd₁ spec₁ s₁) (hndr m₁ hnd₁ spec₁ s₂) heq "paasta_secrets"
    rw [lookupK_sanitized, lookupK_sanitized] at hsec
    simp at hsec
    exact hss hsec

/-- Witness for C2: two concrete manifests differing only in the spec
replica count, the second in reversed key order, hash equal; changing only
the secret fingerprint changes the hash. -/
theorem claim_C2_witness :
    (∃ r₁ r₂,
      sanitize_for_config_hash
        [("kind", .vstr "Deployment"),
         ("spec", .vmap [("replicas", .vint 3), ("image", .vstr "img")])]
        [("SECRET--A", .vstr "signature1")] = some r₁
      ∧ sanitize_for_config_hash
        [("spec", .vmap [("image", .vstr "img"), ("replicas", .vint 5)]),
         ("kind", .vstr "Deployment")]
        [("SECRET--A", .vstr "signature1")] = some r₂
      ∧ get_config_hash r₁ = get_config_hash r₂)
    ∧ (∀ r r',
        sanitize_for_config_hash
          [("kind", .vstr "Deployment"),
           ("spec", .vmap [("replicas", .vint 3), ("image", .vstr "img")])]
          [("SECRET--A", .vstr "signature1")] = some r →
        sanitize_for_config_hash
          [("kind", .vstr "Deployment"),
           ("spec", .vmap [("replicas", .vint 3), ("image", .vstr "img")])]
          [("SECRET--A", .vstr "signature2")] = some r' →
        get_config_hash r ≠ get_config_hash r') := by
  have h := claim_C2_sanitize_config_hash
    [("kind", .vstr "Deployment"),
     ("spec", .vmap [("replicas", .vint 3), ("image", .vstr "img")])]
    [("kind", .vstr "Deployment"),
     ("spec", .vmap [("image", .vstr "img"), ("replicas", .vint 5)])]
    [("spec", .vmap [("image", .vstr "img"), ("replicas", .vint 5)]),
     ("kind", .vstr "Deployment")]
    [("replicas", .vint 3), ("image", .vstr "img")]
    [("image", .vstr "img"), ("replicas", .vint 5)]
    [("SECRET--A", .vstr "signature1")]
    [("SECRET--A", .vstr "signature2")]
    (by unfold NodupKeys; decide) (by unfold NodupKeys; decide)
    (by unfold NodupKeys; decide) (by unfold NodupKeys; decide)
    (by decide) (by decide)
    (by
      intro k h1 h2
      by_cases hk : "kind" = k
      · simp [lookupK, hk]
      · have hs : ¬ ("spec" = k) := fun hh => h2 hh.symm
        simp [lookupK, hk, hs])
    (by
      intro k h1
      have hr : ¬ ("replicas" = k) := fun hh => h1 hh.symm
      by_cases hi : "image" = k <;> simp [lookupK, hr, hi])
    (by decide)
  exact ⟨h.1, h.2 (by decide)⟩

end Paasta
